import Mathlib

/-!
# QtGraphView: node correspondence and graph transition

Shallow embedding of `src/app/qt/view/QtGraphView.cpp`:

* `compareNodesRecursive` (lines 312-349), the recursive matcher that sorts the
  nodes of the freshly built forest and of the displayed forest into appearing,
  vanishing and remaining;
* `createTransition` (lines 351-480), which either swaps the generations at once
  or builds the sequential vanish / remain / appear animation plan;
* `finishedTransition`, `switchToNewGraphData`, `doResize` (lines 85-122, 197-202).

C++ objects are values carrying their address (`ptr`); calls into toolkit objects
that the view does not store itself are recorded, in call order, in `calls`.
-/

namespace QtGraphView

/-! ## Data model -/

/-- Modelled from the spec: the access classifier of an access node ("an enum-like
category, e.g. public/protected/private grouping"); the enum is declared outside
`QtGraphView.cpp`. -/
inductive AccessType where
  | ACCESS_NONE
  | ACCESS_PUBLIC
  | ACCESS_PROTECTED
  | ACCESS_PRIVATE
deriving DecidableEq

/-- Modelled from the spec: a visual node is either a token node, built from a
semantic data reference (`std::make_shared<QtGraphNode>(node.data)`), or an
access node without token identity
(`std::make_shared<QtGraphNodeAccess>(node.accessType, ...)`), see
`createNodeRecursive`, lines 231-239. -/
inductive NodeKind where
  | token (id : Nat)
  | access (accessType : AccessType)
deriving DecidableEq

/-- A `QtGraphNode` object: its address, its variant, position, size and the
ordered list of sub nodes it owns. -/
inductive QtGraphNode where
  | mk (ptr : Nat) (kind : NodeKind) (pos : Int × Int) (size : Int × Int)
      (subNodes : List QtGraphNode)

namespace QtGraphNode

/-- Address of the object (what a `QtGraphNode*` holds). -/
def ptr : QtGraphNode → Nat
  | mk p _ _ _ _ => p

/-- Variant of the node. -/
def kind : QtGraphNode → NodeKind
  | mk _ k _ _ _ => k

/-- Value of `pos()`. -/
def pos : QtGraphNode → Int × Int
  | mk _ _ p _ _ => p

/-- Value of `size()`. -/
def size : QtGraphNode → Int × Int
  | mk _ _ _ s _ => s

/-- Value of `getSubNodes()`. -/
def getSubNodes : QtGraphNode → List QtGraphNode
  | mk _ _ _ _ subs => subs

/-- Modelled from the spec: `getTokenId()` is the token identifier of a token
node and the empty identifier `0` for a node without token identity. -/
def getTokenId (n : QtGraphNode) : Nat :=
  match n.kind with
  | .token id => id
  | .access _ => 0

/-- Modelled from the spec: `isAccessNode()` holds exactly for access nodes. -/
def isAccessNode (n : QtGraphNode) : Bool :=
  match n.kind with
  | .token _ => false
  | .access _ => true

/-- Modelled from the spec: `dynamic_cast<QtGraphNodeAccess*>(n)->getAccessType()`;
the cast yields no object for a token node. -/
def getAccessType (n : QtGraphNode) : Option AccessType :=
  match n.kind with
  | .token _ => none
  | .access a => some a

end QtGraphNode

/-- A `QtGraphEdge` object: its address, the addresses of its owner and target
nodes, and its activity flag. -/
structure QtGraphEdge where
  ptr : Nat
  owner : Nat
  target : Nat
  active : Bool
deriving DecidableEq

/-! ## The matcher -/

/-- The three output lists of `compareNodesRecursive` (lines 315-317). -/
structure Correspondence where
  appearingNodes : List QtGraphNode
  vanishingNodes : List QtGraphNode
  remainingNodes : List (QtGraphNode × QtGraphNode)

/-- The condition of the `if` at lines 325-328. -/
def nodesMatch (it it2 : QtGraphNode) : Bool :=
  (it.getTokenId != 0 && it.getTokenId == it2.getTokenId) ||
  (it.isAccessNode && it2.isAccessNode && it.getAccessType == it2.getAccessType)

/-- The inner loop of lines 323-337 without its pushes: walk `oldSubNodes` from
the front, stop at the first `it2` that matches `it`, and return it together
with `oldSubNodes` after `erase(it2)`; `none` when the loop runs to the end
(`remains` stays false). -/
def findMatch (it : QtGraphNode) : List QtGraphNode → Option (QtGraphNode × List QtGraphNode)
  | [] => none
  | it2 :: rest =>
    if nodesMatch it it2 then some (it2, rest)
    else
      match findMatch it rest with
      | none => none
      | some (m, rest1) => some (m, it2 :: rest1)

mutual
/-- The recursive call of line 331 on the sub nodes of a matched new node. -/
def compareSubNodes : QtGraphNode → List QtGraphNode → Correspondence → Correspondence
  | .mk _ _ _ _ subs, oldSubNodes, out => compareNodesRecursive subs oldSubNodes out
/-- Embedding of `QtGraphView::compareNodesRecursive` (lines 312-349): the three
output lists are threaded through the call. -/
def compareNodesRecursive :
    List QtGraphNode → List QtGraphNode → Correspondence → Correspondence
  | [], oldSubNodes, out =>
    { out with vanishingNodes := out.vanishingNodes ++ oldSubNodes }
  | it :: newRest, oldSubNodes, out =>
    match findMatch it oldSubNodes with
    | some (it2, oldRest) =>
      compareNodesRecursive newRest oldRest
        (compareSubNodes it it2.getSubNodes
          { out with remainingNodes := out.remainingNodes ++ [(it, it2)] })
    | none =>
      compareNodesRecursive newRest oldSubNodes
        { out with appearingNodes := out.appearingNodes ++ [it] }
end

/-- The call of line 357: the matcher run on empty output lists. -/
def compareForests (newNodes oldNodes : List QtGraphNode) : Correspondence :=
  compareNodesRecursive newNodes oldNodes ⟨[], [], []⟩

mutual
/-- A node followed by all its descendants, in pre-order. -/
def subtree : QtGraphNode → List QtGraphNode
  | .mk p k ps sz subs => .mk p k ps sz subs :: allNodes subs
/-- Every node of a forest, at every depth, in pre-order. -/
def allNodes : List QtGraphNode → List QtGraphNode
  | [] => []
  | n :: ns => subtree n ++ allNodes ns
end

/-- The strict descendants of a node. -/
def descendants (n : QtGraphNode) : List QtGraphNode :=
  allNodes n.getSubNodes

/-! ## The view state and the transition -/

/-- Animated properties (the property names passed to `QPropertyAnimation`). -/
inductive Property where
  | opacity
  | pos
  | size
deriving DecidableEq

/-- Start and end values of an animation: a number or a 2D value. -/
inductive Value where
  | num (v : Int)
  | vec (v : Int × Int)
deriving DecidableEq

/-- Slots connected to a `finished()` signal. -/
inductive Slot where
  | showNode (node : Nat)
  | hideNode (node : Nat)
  | blendIn (node : Nat)
  | finishedTransition
deriving DecidableEq

/-- A `QPropertyAnimation` with the slots connected to its `finished()` signal. -/
structure QPropertyAnimation where
  target : Nat
  property : Property
  duration : Nat
  startValue : Value
  endValue : Value
  finished : List Slot
deriving DecidableEq

/-- The three groups `createTransition` can build (`vanish`, `remain`, `appear`). -/
inductive Phase where
  | vanish
  | remain
  | appear
deriving DecidableEq

/-- A `QParallelAnimationGroup`, tagged with the local variable that holds it. -/
structure QParallelAnimationGroup where
  phase : Phase
  animations : List QPropertyAnimation
deriving DecidableEq

/-- The `QSequentialAnimationGroup` stored in `m_transition`. -/
structure QSequentialAnimationGroup where
  groups : List QParallelAnimationGroup
  finished : List Slot
  started : Bool
deriving DecidableEq

/-- Calls into objects the view does not store itself, recorded in call order. -/
inductive SceneCall where
  | setShadowEnabledRecursive (node : Nat) (enabled : Bool)
  | hide (node : Nat)
  | hideLabel (node : Nat)
  | blendOut (node : Nat)
  | setOpacity (edge : Nat) (value : Int)
  | setSceneRect (nodes : List Nat) (margin : Int) (offset : Int × Int)
  | hoverItemUnderCursor
  | addItem (item : Nat)
deriving DecidableEq

/-- The members of `QtGraphView` the transition code reads or writes, the
`interactive` property of its `QGraphicsView`, and the recorded calls. -/
structure State where
  m_graph : Option Nat
  m_oldGraph : Option Nat
  m_nodes : List QtGraphNode
  m_oldNodes : List QtGraphNode
  m_edges : List QtGraphEdge
  m_oldEdges : List QtGraphEdge
  m_sceneRectOffset : Int × Int
  m_transition : Option QSequentialAnimationGroup
  interactive : Bool
  calls : List SceneCall

/-- Embedding of `QtGraphView::doResize` (lines 197-202): the scene rectangle is
set to the bounding rectangle of `m_oldNodes`, grown by the margin 25 and
translated by `m_sceneRectOffset`. -/
def doResize (s : State) : State :=
  { s with calls := s.calls ++
      [SceneCall.setSceneRect (s.m_oldNodes.map QtGraphNode.ptr) 25 s.m_sceneRectOffset] }

/-- Embedding of `QtGraphView::switchToNewGraphData` (lines 98-122). -/
def switchToNewGraphData (s : State) : State :=
  let s1 := { s with m_oldGraph := s.m_graph }
  let s2 := { s1 with m_oldNodes := s1.m_nodes, m_oldEdges := s1.m_edges }
  let s3 := { s2 with m_nodes := [], m_edges := [] }
  let s4 := doResize s3
  { s4 with calls := s4.calls ++ [SceneCall.hoverItemUnderCursor] }

/-- Embedding of `QtGraphView::finishedTransition` (lines 85-96). -/
def finishedTransition (s : State) : State :=
  let shadowCalls :=
    s.m_nodes.map (fun node => SceneCall.setShadowEnabledRecursive node.ptr true)
  let s1 := { s with calls := s.calls ++ shadowCalls }
  let s2 := { s1 with interactive := true }
  switchToNewGraphData s2

/-- The animation of lines 387-390 and 397-400 (fade out), 452-455 and 465-468
(fade in): an opacity animation of the given duration. -/
def opacityAnimation (target duration : Nat) (startValue endValue : Int)
    (finished : List Slot) : QPropertyAnimation :=
  ⟨target, Property.opacity, duration, Value.num startValue, Value.num endValue, finished⟩

/-- The group built at lines 383-403. -/
def vanishGroup (vanishingNodes : List QtGraphNode) (oldEdges : List QtGraphEdge) :
    QParallelAnimationGroup :=
  ⟨Phase.vanish,
    vanishingNodes.map (fun node => opacityAnimation node.ptr 300 1 0 []) ++
    oldEdges.map (fun edge => opacityAnimation edge.ptr 150 1 0 [])⟩

/-- The two animations added per remaining pair (lines 418-434). -/
def remainAnimations (p : QtGraphNode × QtGraphNode) : List QPropertyAnimation :=
  [⟨p.2.ptr, Property.pos, 300, Value.vec p.2.pos, Value.vec p.1.pos,
      [Slot.showNode p.1.ptr, Slot.hideNode p.2.ptr]⟩,
   ⟨p.2.ptr, Property.size, 300, Value.vec p.2.size, Value.vec p.1.size, []⟩]

/-- The calls made per remaining pair: `newNode->hide()` (line 427) and, under
the condition of line 436, `hideLabel()` on the old node (line 438). -/
def remainCalls (p : QtGraphNode × QtGraphNode) : List SceneCall :=
  SceneCall.hide p.1.ptr ::
    (if p.1.isAccessNode && p.1.getSubNodes.length == 0 && decide (p.2.getSubNodes.length > 0)
      then [SceneCall.hideLabel p.2.ptr] else [])

/-- The group built at lines 411-440. -/
def remainGroup (remainingNodes : List (QtGraphNode × QtGraphNode)) :
    QParallelAnimationGroup :=
  ⟨Phase.remain, remainingNodes.flatMap remainAnimations⟩

/-- The group built at lines 448-473. -/
def appearGroup (appearingNodes : List QtGraphNode) (edges : List QtGraphEdge) :
    QParallelAnimationGroup :=
  ⟨Phase.appear,
    appearingNodes.map (fun node => opacityAnimation node.ptr 300 0 1 [Slot.blendIn node.ptr]) ++
    edges.map (fun edge => opacityAnimation edge.ptr 150 0 1 [])⟩

/-- Embedding of `QtGraphView::createTransition` (lines 351-480). -/
def createTransition (s : State) : State :=
  let out := compareNodesRecursive s.m_nodes s.m_oldNodes ⟨[], [], []⟩
  if out.vanishingNodes.length == 0 && out.appearingNodes.length == 0 then
    switchToNewGraphData s
  else
    let shadowCalls :=
      s.m_nodes.map (fun node => SceneCall.setShadowEnabledRecursive node.ptr false) ++
      s.m_oldNodes.map (fun node => SceneCall.setShadowEnabledRecursive node.ptr false)
    let vanish :=
      if out.vanishingNodes.length != 0 || s.m_oldEdges.length != 0
        then [vanishGroup out.vanishingNodes s.m_oldEdges] else []
    let remain :=
      if out.remainingNodes.length != 0 then [remainGroup out.remainingNodes] else []
    let remainSceneCalls :=
      if out.remainingNodes.length != 0 then out.remainingNodes.flatMap remainCalls else []
    let appear :=
      if out.appearingNodes.length != 0 || s.m_edges.length != 0
        then [appearGroup out.appearingNodes s.m_edges] else []
    let appearSceneCalls :=
      if out.appearingNodes.length != 0 || s.m_edges.length != 0
        then out.appearingNodes.map (fun node => SceneCall.blendOut node.ptr) ++
          s.m_edges.map (fun edge => SceneCall.setOpacity edge.ptr 0)
        else []
    { s with
      interactive := false
      m_transition := some ⟨vanish ++ remain ++ appear, [Slot.finishedTransition], true⟩
      calls := s.calls ++ shadowCalls ++ remainSceneCalls ++ appearSceneCalls }


/-! ## The life cycle of the view -/

/-- Embedding of `QtGraphView::doClear` (lines 185-195). -/
def doClear (s : State) : State :=
  { s with
    m_nodes := [], m_edges := [], m_oldNodes := [], m_oldEdges := [],
    m_graph := none, m_oldGraph := none }

/-- What lines 145-175 of `doRebuildGraph` build from the descriptors they are
given: the graph handle passed in (none for a null pointer), the node objects
created by `createNodeRecursive` as the postprocessor and line 164 leave them,
the offset computed at lines 157-160 and the edge objects created by
`createEdge`. Creation allocates new objects and runs the postprocessor, which
is outside this file, so its outcome is taken as given. -/
structure BuiltGraph where
  graph : Option Nat
  nodes : List QtGraphNode
  sceneRectOffset : Int × Int
  edges : List QtGraphEdge

/-- Lines 143-180 of `doRebuildGraph`: `m_nodes` is cleared and refilled with the
new nodes, each added to the scene when it is created (line 247, parent before
children), the offset is stored, `m_edges` is cleared and refilled with the new
edges, each added to the scene (line 290), and `m_graph` is replaced when the
handle passed in is not null. This is the state in which `createTransition` is
entered at line 182. -/
def installGraphData (b : BuiltGraph) (s : State) : State :=
  let s1 := { s with
    m_nodes := b.nodes
    calls := s.calls ++ (allNodes b.nodes).map (fun (node : QtGraphNode) => SceneCall.addItem node.ptr) }
  let s2 := { s1 with m_sceneRectOffset := b.sceneRectOffset }
  let s3 := { s2 with
    m_edges := b.edges
    calls := s2.calls ++ b.edges.map (fun (edge : QtGraphEdge) => SceneCall.addItem edge.ptr) }
  match b.graph with
  | some graph => { s3 with m_graph := some graph }
  | none => s3

/-- Embedding of `QtGraphView::doRebuildGraph` (lines 138-183). -/
def doRebuildGraph (b : BuiltGraph) (s : State) : State :=
  createTransition (installGraphData b s)

/-- Modelled from the spec: the view after construction and `initView` (lines
21-55) holds no graph, no node, no edge and no transition, and it is
interactive, since "`Transitioning` is the only state in which interactivity is
disabled". -/
def initialState : State :=
  { m_graph := none, m_oldGraph := none,
    m_nodes := [], m_oldNodes := [],
    m_edges := [], m_oldEdges := [],
    m_sceneRectOffset := (0, 0), m_transition := none,
    interactive := true, calls := [] }

/-- The objects lines 145-175 create are new: while the nodes and edges of
`m_oldNodes` and `m_oldEdges` are alive, none of them has the address of a newly
created node or edge. -/
def Fresh (b : BuiltGraph) (s : State) : Prop :=
  (∀ n ∈ allNodes s.m_oldNodes, n.ptr ∉ (allNodes b.nodes).map QtGraphNode.ptr) ∧
  (∀ e ∈ s.m_oldEdges, e.ptr ∉ b.edges.map QtGraphEdge.ptr)

instance (b : BuiltGraph) (s : State) : Decidable (Fresh b s) := by
  unfold Fresh
  exact inferInstance

/-- The states the view is in between two handler runs. It starts in
`initialState`; `doClear` and `doResize` run at any time; `finishedTransition`
runs when the running transition emits `finished()`, that is while the view is
not interactive (line 376 is the only place that disables interactivity, and
line 378 stores the transition started at line 479); `doRebuildGraph` runs on
newly created objects while no transition is running. Modelled from the spec:
a rebuild that arrives while a transition is in progress is left undefined
("callers should be documented as required to avoid overlapping `rebuild`
calls"), so it is not a step. -/
inductive Reachable : State → Prop where
  | initial : Reachable initialState
  | rebuild (b : BuiltGraph) (s : State) :
      Reachable s → s.interactive = true → Fresh b s → Reachable (doRebuildGraph b s)
  | finished (s : State) :
      Reachable s → s.interactive = false → Reachable (finishedTransition s)
  | clear (s : State) : Reachable s → Reachable (doClear s)
  | resize (s : State) : Reachable s → Reachable (doResize s)

/-- The states in which `createTransition` is entered (line 182): a rebuild of a
reachable state has installed its new nodes and edges. -/
def EntersCreateTransition (pre : State) : Prop :=
  ∃ (b : BuiltGraph) (s : State),
    Reachable s ∧ s.interactive = true ∧ Fresh b s ∧ pre = installGraphData b s

/-- Componentwise concatenation of output lists. -/
def Correspondence.append (a b : Correspondence) : Correspondence :=
  ⟨a.appearingNodes ++ b.appearingNodes, a.vanishingNodes ++ b.vanishingNodes,
    a.remainingNodes ++ b.remainingNodes⟩

/-- The nodes of the new forest the matcher accounts for: the new members of the
remaining pairs, the appearing nodes, and the strict descendants of appearing
nodes. -/
def newClassified (r : Correspondence) : List QtGraphNode :=
  r.remainingNodes.map Prod.fst ++
    (r.appearingNodes ++ r.appearingNodes.flatMap descendants)

/-- The nodes of the old forest the matcher accounts for: the old members of the
remaining pairs, the vanishing nodes, and the strict descendants of vanishing
nodes. -/
def oldClassified (r : Correspondence) : List QtGraphNode :=
  r.remainingNodes.map Prod.snd ++
    (r.vanishingNodes ++ r.vanishingNodes.flatMap descendants)

/-- Exactly one of three propositions holds. -/
def ExactlyOne (a b c : Prop) : Prop :=
  (a ∧ ¬ b ∧ ¬ c) ∨ (¬ a ∧ b ∧ ¬ c) ∨ (¬ a ∧ ¬ b ∧ c)

/-- The node at address `p` is the new member of a remaining pair. -/
def IsRemainingNew (r : Correspondence) (p : Nat) : Prop :=
  ∃ q ∈ r.remainingNodes, q.1.ptr = p

/-- The node at address `p` is the old member of a remaining pair. -/
def IsRemainingOld (r : Correspondence) (p : Nat) : Prop :=
  ∃ q ∈ r.remainingNodes, q.2.ptr = p

/-- The node at address `p` is listed in `l`. -/
def IsListed (l : List QtGraphNode) (p : Nat) : Prop :=
  ∃ a ∈ l, a.ptr = p

/-- The node at address `p` is a strict descendant of a node listed in `l`. -/
def IsBelowListed (l : List QtGraphNode) (p : Nat) : Prop :=
  ∃ a ∈ l, ∃ d ∈ descendants a, d.ptr = p

/-! ## The forests of the worked example -/

/-- Old node `A` (token 1). -/
def oldA : QtGraphNode := .mk 1 (.token 1) (0, 0) (40, 20) []

/-- Old node `C` (token 2), the only child of `B`. -/
def oldC : QtGraphNode := .mk 3 (.token 2) (5, 25) (30, 15) []

/-- Old node `B` (access node, public), parent of `C`. -/
def oldB : QtGraphNode := .mk 2 (.access .ACCESS_PUBLIC) (0, 30) (60, 50) [oldC]

/-- New node `A'` (token 1). -/
def newA : QtGraphNode := .mk 4 (.token 1) (10, 0) (45, 20) []

/-- New node `D` (access node, public, no children). -/
def newD : QtGraphNode := .mk 5 (.access .ACCESS_PUBLIC) (10, 30) (60, 20) []

/-- A view state holding the new forest `[A', D]` in `m_nodes` and the old forest
`[A, B]` in `m_oldNodes`, with no call recorded yet. -/
def exampleState (edges oldEdges : List QtGraphEdge) : State :=
  { m_graph := some 2, m_oldGraph := some 1,
    m_nodes := [newA, newD], m_oldNodes := [oldA, oldB],
    m_edges := edges, m_oldEdges := oldEdges,
    m_sceneRectOffset := (0, 0), m_transition := none,
    interactive := true, calls := [] }

/-! ## Sequential execution of a plan -/

/-- Position of a phase in the order vanish, remain, appear. -/
def Phase.index : Phase → Nat
  | .vanish => 1
  | .remain => 2
  | .appear => 3

/-- Modelled from the spec: a phase is internally parallel, "all animations in a
phase start together and the phase ends when its slowest animation ends"; this
is the running time of a `QParallelAnimationGroup`, a toolkit class. -/
def groupDuration (g : QParallelAnimationGroup) : Nat :=
  (g.animations.map (fun a => a.duration)).foldr max 0

/-- One animation run: its phase, the animation, the time it starts and the time
it completes. -/
structure AnimationRun where
  phase : Phase
  animation : QPropertyAnimation
  start : Nat
  stop : Nat
deriving DecidableEq

/-- Modelled from the spec: sequential execution of the groups of a
`QSequentialAnimationGroup` (a toolkit class) started at time `t`: the
animations of the first group all start at `t`, and the next group starts when
the first group has ended. -/
def schedule : List QParallelAnimationGroup → Nat → List AnimationRun
  | [], _ => []
  | g :: gs, t =>
    g.animations.map (fun a => ⟨g.phase, a, t, t + a.duration⟩) ++
      schedule gs (t + groupDuration g)

/-- Modelled from the spec: the time at which a sequential group started at `t`
has run its last group and emits `finished()`. -/
def finishTime : List QParallelAnimationGroup → Nat → Nat
  | [], t => t
  | g :: gs, t => finishTime gs (t + groupDuration g)

/-- A state whose node forests match without appearing or vanishing node while
its edge lists are non-empty and differ. -/
def edgeOnlyState : State :=
  { m_graph := some 2, m_oldGraph := some 1,
    m_nodes := [newA], m_oldNodes := [oldA],
    m_edges := [⟨20, 4, 4, false⟩], m_oldEdges := [⟨10, 1, 1, true⟩, ⟨11, 1, 1, false⟩],
    m_sceneRectOffset := (0, 0), m_transition := none,
    interactive := true, calls := [] }

/-- The first rebuild of the view, with the forest `[A, B]` and one edge. -/
def firstBuild : BuiltGraph :=
  { graph := some 1, nodes := [oldA, oldB], sceneRectOffset := (0, 0),
    edges := [⟨10, 1, 2, true⟩] }

/-- The view while the transition of its first rebuild runs. -/
def firstTransitionState : State :=
  doRebuildGraph firstBuild initialState

/-! ## Identical forests -/

mutual
/-- Two nodes are identical up to their address, position and size: same
variant (token identifier or access type) and identical sub node lists. -/
def sameNode : QtGraphNode → QtGraphNode → Bool
  | .mk _ k _ _ subs, o => decide (k = o.kind) && sameForest subs o.getSubNodes
/-- Two forests are identical up to addresses, positions and sizes: same length,
identical nodes at the same positions. -/
def sameForest : List QtGraphNode → List QtGraphNode → Bool
  | [], os => os.isEmpty
  | n :: ns, os =>
    match os with
    | [] => false
    | o :: rest => sameNode n o && sameForest ns rest
end

mutual
/-- A new node paired with the old node at the same place, followed by the
pairs of their sub nodes. -/
def nodeCounterparts : QtGraphNode → QtGraphNode → List (QtGraphNode × QtGraphNode)
  | .mk p k ps sz subs, o => (.mk p k ps sz subs, o) :: counterparts subs o.getSubNodes
/-- Every node of the new forest paired with the node at the same place of the
old forest, in pre-order. -/
def counterparts : List QtGraphNode → List QtGraphNode → List (QtGraphNode × QtGraphNode)
  | [], _ => []
  | n :: ns, os =>
    match os with
    | [] => []
    | o :: rest => nodeCounterparts n o ++ counterparts ns rest
end

/-- A copy of the old forest `[A, B]` of the worked example at fresh addresses
and other positions. -/
def copyOfOld : List QtGraphNode :=
  [.mk 6 (.token 1) (3, 3) (40, 20) [],
   .mk 7 (.access .ACCESS_PUBLIC) (3, 33) (60, 50) [.mk 8 (.token 2) (8, 28) (30, 15) []]]

/-- The second rebuild of the view, with a copy of `[A, B]` and one edge. -/
def secondBuild : BuiltGraph :=
  { graph := some 2, nodes := copyOfOld, sceneRectOffset := (0, 0),
    edges := [⟨20, 6, 7, false⟩] }

/-- The view on entering `createTransition` in its second rebuild, after the
transition of the first rebuild has finished. -/
def secondEntryState : State :=
  installGraphData secondBuild (finishedTransition firstTransitionState)

/-! ## Siblings sharing a token identifier -/

/-- New sibling `X` with token 1. -/
def dupNewX : QtGraphNode := .mk 30 (.token 1) (0, 0) (10, 10) []

/-- Old sibling `Y` with token 1, first in the old list. -/
def dupOldY : QtGraphNode := .mk 31 (.token 1) (0, 0) (10, 10) []

/-- Old sibling `Z` with token 1, second in the old list. -/
def dupOldZ : QtGraphNode := .mk 32 (.token 1) (0, 20) (10, 10) []

/-! ## One pass over a sibling list, as the specification words it -/

/-- The matching rule in the words of the specification: two nodes match if
both carry a non-empty token identifier and the identifiers are equal, or if
both are access nodes and their access classifiers are equal. -/
def specRule (n o : QtGraphNode) : Bool :=
  match n.kind, o.kind with
  | .token a, .token b => a != 0 && a == b
  | .access a, .access b => a == b
  | _, _ => false

/-- The old siblings, with their positions, that are not among the positions
already paired, in old-list order. -/
def unpaired (olds : List QtGraphNode) (paired : List Nat) : List (Nat × QtGraphNode) :=
  olds.enum.filter (fun e => !paired.contains e.1)

/-- The first old sibling, in old-list order, that has not been paired with an
earlier new sibling and satisfies the matching rule. -/
def partner (n : QtGraphNode) (olds : List QtGraphNode) (paired : List Nat) :
    Option (Nat × QtGraphNode) :=
  (unpaired olds paired).find? (fun e => specRule n e.2)

/-- The pass in the words of the specification: the new siblings are taken in
list order, each is paired with its `partner` (whose position is then marked as
paired) or left without one; the result is the list of decisions and the old
siblings left unpaired at the end, in old-list order. -/
def specPass : List QtGraphNode → List QtGraphNode → List Nat →
    List (QtGraphNode × Option QtGraphNode) × List QtGraphNode
  | [], olds, paired => ([], (unpaired olds paired).map Prod.snd)
  | n :: ns, olds, paired =>
    match partner n olds paired with
    | some e => ((n, some e.2) :: (specPass ns olds (e.1 :: paired)).1,
        (specPass ns olds (e.1 :: paired)).2)
    | none => ((n, none) :: (specPass ns olds paired).1, (specPass ns olds paired).2)

/-- The effect of a list of decisions on the output lists: a paired new sibling
is pushed to `remainingNodes` with its partner and their sub nodes are compared;
a new sibling without partner is pushed to `appearingNodes`; at the end the
unpaired old siblings are pushed to `vanishingNodes`. -/
def applyDecisions : List (QtGraphNode × Option QtGraphNode) → List QtGraphNode →
    Correspondence → Correspondence
  | [], unpairedOlds, out =>
    { out with vanishingNodes := out.vanishingNodes ++ unpairedOlds }
  | (n, some o) :: ds, unpairedOlds, out =>
    applyDecisions ds unpairedOlds
      (compareNodesRecursive n.getSubNodes o.getSubNodes
        { out with remainingNodes := out.remainingNodes ++ [(n, o)] })
  | (n, none) :: ds, unpairedOlds, out =>
    applyDecisions ds unpairedOlds { out with appearingNodes := out.appearingNodes ++ [n] }

/-- The pairs among a list of decisions. -/
def pairsOf (ds : List (QtGraphNode × Option QtGraphNode)) : List (QtGraphNode × QtGraphNode) :=
  ds.filterMap (fun d => d.2.map (fun o => (d.1, o)))

/-- The decisions the loops of lines 319-343 take at the level of the call, read
off the code: `findMatch` on the shrinking list of old siblings. -/
def levelPass : List QtGraphNode → List QtGraphNode →
    List (QtGraphNode × Option QtGraphNode) × List QtGraphNode
  | [], olds => ([], olds)
  | n :: ns, olds =>
    match findMatch n olds with
    | some (o, rest) => ((n, some o) :: (levelPass ns rest).1, (levelPass ns rest).2)
    | none => ((n, none) :: (levelPass ns olds).1, (levelPass ns olds).2)

/-- Three new access siblings and two old access siblings, all public. -/
def accessSiblings : List QtGraphNode × List QtGraphNode :=
  ([.mk 41 (.access .ACCESS_PUBLIC) (0, 0) (10, 10) [],
    .mk 42 (.access .ACCESS_PUBLIC) (0, 20) (10, 10) [],
    .mk 43 (.access .ACCESS_PUBLIC) (0, 40) (10, 10) []],
   [.mk 44 (.access .ACCESS_PUBLIC) (0, 0) (10, 10) [],
    .mk 45 (.access .ACCESS_PUBLIC) (0, 20) (10, 10) []])

/-- The new siblings a list of decisions leaves without partner. -/
def unpartneredOf (ds : List (QtGraphNode × Option QtGraphNode)) : List QtGraphNode :=
  (ds.filter (fun d => d.2.isNone)).map Prod.fst

/-! ## Basic facts about the matcher -/

theorem subtree_eq (n : QtGraphNode) : subtree n = n :: descendants n := by
  cases n with
  | mk p k ps sz subs => simp [subtree, descendants, QtGraphNode.getSubNodes]

theorem allNodes_cons (n : QtGraphNode) (ns : List QtGraphNode) :
    allNodes (n :: ns) = n :: (descendants n ++ allNodes ns) := by
  simp [allNodes, subtree_eq]

theorem compareNodesRecursive_cons (n : QtGraphNode) (ns olds : List QtGraphNode)
    (out : Correspondence) :
    compareNodesRecursive (n :: ns) olds out =
      match findMatch n olds with
      | some (o, oldRest) =>
        compareNodesRecursive ns oldRest
          (compareNodesRecursive n.getSubNodes o.getSubNodes
            { out with remainingNodes := out.remainingNodes ++ [(n, o)] })
      | none =>
        compareNodesRecursive ns olds { out with appearingNodes := out.appearingNodes ++ [n] } := by
  cases n with
  | mk p k ps sz subs =>
    rw [compareNodesRecursive]
    simp only [compareSubNodes, QtGraphNode.getSubNodes]

mutual
theorem node_induction (P : List QtGraphNode → Prop) (hnil : P [])
    (hcons : ∀ n ns, P n.getSubNodes → P ns → P (n :: ns)) :
    ∀ n : QtGraphNode, P n.getSubNodes
  | .mk _ _ _ _ subs => forest_induction P hnil hcons subs
theorem forest_induction (P : List QtGraphNode → Prop) (hnil : P [])
    (hcons : ∀ n ns, P n.getSubNodes → P ns → P (n :: ns)) :
    ∀ l : List QtGraphNode, P l
  | [] => hnil
  | n :: ns => hcons n ns (node_induction P hnil hcons n) (forest_induction P hnil hcons ns)
end

theorem compareNodesRecursive_append (news : List QtGraphNode) :
    ∀ (olds : List QtGraphNode) (out : Correspondence),
      compareNodesRecursive news olds out = out.append (compareForests news olds) := by
  induction news using forest_induction with
  | hnil =>
    intro olds out
    simp [compareForests, compareNodesRecursive, Correspondence.append]
  | hcons n ns ihc ihs =>
    intro olds out
    simp only [compareForests, compareNodesRecursive_cons]
    cases h : findMatch n olds with
    | none =>
      simp only []
      rw [ihs, ihs olds ⟨[] ++ [n], [], []⟩]
      simp [Correspondence.append]
    | some p =>
      obtain ⟨o, rest⟩ := p
      simp only []
      rw [ihs, ihc, ihs rest (compareNodesRecursive _ _ _), ihc _ ⟨[], [], [] ++ [(n, o)]⟩]
      simp [Correspondence.append]


theorem compareForests_nil (olds : List QtGraphNode) :
    compareForests [] olds = ⟨[], olds, []⟩ := by
  simp [compareForests, compareNodesRecursive]

theorem compareForests_cons_some {n o : QtGraphNode} {ns olds rest : List QtGraphNode}
    (h : findMatch n olds = some (o, rest)) :
    compareForests (n :: ns) olds =
      ((Correspondence.mk [] [] [(n, o)]).append
        (compareForests n.getSubNodes o.getSubNodes)).append (compareForests ns rest) := by
  simp only [compareForests, compareNodesRecursive_cons, h]
  rw [compareNodesRecursive_append ns, compareNodesRecursive_append n.getSubNodes]
  simp [compareForests]

theorem compareForests_cons_none {n : QtGraphNode} {ns olds : List QtGraphNode}
    (h : findMatch n olds = none) :
    compareForests (n :: ns) olds =
      (Correspondence.mk [n] [] []).append (compareForests ns olds) := by
  simp only [compareForests, compareNodesRecursive_cons, h]
  rw [compareNodesRecursive_append ns]
  simp [compareForests]

theorem findMatch_some {n o : QtGraphNode} :
    ∀ {olds rest : List QtGraphNode}, findMatch n olds = some (o, rest) →
      ∃ pre post, olds = pre ++ o :: post ∧ rest = pre ++ post ∧
        nodesMatch n o = true ∧ ∀ x ∈ pre, nodesMatch n x = false := by
  intro olds
  induction olds with
  | nil => intro rest h; simp [findMatch] at h
  | cons x xs ih =>
    intro rest h
    simp only [findMatch] at h
    by_cases hx : nodesMatch n x = true
    · simp only [hx, if_true, Option.some.injEq, Prod.mk.injEq] at h
      obtain ⟨rfl, rfl⟩ := h
      exact ⟨[], xs, rfl, rfl, hx, by simp⟩
    · simp only [hx] at h
      cases hm : findMatch n xs with
      | none => simp [hm] at h
      | some p =>
        obtain ⟨m, rest1⟩ := p
        simp only [hm, if_false, Option.some.injEq, Prod.mk.injEq] at h
        obtain ⟨rfl, rfl⟩ := h
        obtain ⟨pre, post, h1, h2, h3, h4⟩ := ih hm
        refine ⟨x :: pre, post, by simp [h1], by simp [h2], h3, ?_⟩
        intro y hy
        rcases List.mem_cons.1 hy with rfl | hy
        · simpa using hx
        · exact h4 y hy

theorem findMatch_none {n : QtGraphNode} :
    ∀ {olds : List QtGraphNode}, findMatch n olds = none →
      ∀ x ∈ olds, nodesMatch n x = false := by
  intro olds
  induction olds with
  | nil => intro _ x hx; simp at hx
  | cons y ys ih =>
    intro h x hx
    simp only [findMatch] at h
    by_cases hy : nodesMatch n y = true
    · simp [hy] at h
    · simp only [hy] at h
      cases hm : findMatch n ys with
      | some p => simp [hm] at h
      | none =>
        rcases List.mem_cons.1 hx with rfl | hx
        · simpa using hy
        · exact ih hm x hx

theorem findMatch_of_split {n o : QtGraphNode} :
    ∀ {pre post : List QtGraphNode}, nodesMatch n o = true →
      (∀ x ∈ pre, nodesMatch n x = false) →
      findMatch n (pre ++ o :: post) = some (o, pre ++ post) := by
  intro pre
  induction pre with
  | nil => intro post ho _; simp [findMatch, ho]
  | cons x xs ih =>
    intro post ho hpre
    have hx : nodesMatch n x = false := hpre x (by simp)
    have := @ih post ho (fun y hy => hpre y (by simp [hy]))
    simp [findMatch, hx, this]

theorem findMatch_perm {n o : QtGraphNode} {olds rest : List QtGraphNode}
    (h : findMatch n olds = some (o, rest)) : olds.Perm (o :: rest) := by
  obtain ⟨pre, post, h1, h2, -, -⟩ := findMatch_some h
  subst h1 h2
  exact List.perm_middle

theorem allNodes_eq_flatMap (l : List QtGraphNode) : allNodes l = l.flatMap subtree := by
  induction l with
  | nil => simp [allNodes]
  | cons n ns ih => simp [allNodes, ih]

theorem allNodes_perm {l l2 : List QtGraphNode} (h : l.Perm l2) :
    (allNodes l).Perm (allNodes l2) := by
  rw [allNodes_eq_flatMap, allNodes_eq_flatMap]
  exact h.flatMap_right subtree

theorem allNodes_perm_self (l : List QtGraphNode) :
    (allNodes l).Perm (l ++ l.flatMap descendants) := by
  induction l with
  | nil => simp [allNodes]
  | cons n ns ih =>
    rw [allNodes_cons]
    simp only [List.cons_append, List.flatMap_cons]
    refine List.Perm.cons n ?_
    refine ((List.Perm.append_left _ ih).trans ?_)
    rw [← List.append_assoc, ← List.append_assoc]
    exact List.Perm.append_right _ List.perm_append_comm


/-! ## The matcher partitions both forests -/

theorem newClassified_append (a b : Correspondence) :
    (newClassified (a.append b)).Perm (newClassified a ++ newClassified b) := by
  classical
  simp only [newClassified, Correspondence.append, List.map_append, List.flatMap_append]
  rw [List.perm_iff_count]
  intro x
  simp only [List.count_append]
  omega

theorem oldClassified_append (a b : Correspondence) :
    (oldClassified (a.append b)).Perm (oldClassified a ++ oldClassified b) := by
  classical
  simp only [oldClassified, Correspondence.append, List.map_append, List.flatMap_append]
  rw [List.perm_iff_count]
  intro x
  simp only [List.count_append]
  omega

theorem allNodes_perm_newClassified (news : List QtGraphNode) :
    ∀ olds : List QtGraphNode,
      (allNodes news).Perm (newClassified (compareForests news olds)) := by
  induction news using forest_induction with
  | hnil => intro olds; simp [compareForests_nil, allNodes, newClassified]
  | hcons n ns ihc ihs =>
    intro olds
    rw [allNodes_cons]
    cases h : findMatch n olds with
    | none =>
      rw [compareForests_cons_none h]
      refine List.Perm.trans ?_ (newClassified_append _ _).symm
      have h1 : newClassified ⟨[n], [], []⟩ = n :: descendants n := by
        simp [newClassified]
      rw [h1]
      exact List.Perm.cons n (List.Perm.append_left _ (ihs olds))
    | some p =>
      obtain ⟨o, rest⟩ := p
      rw [compareForests_cons_some h]
      refine List.Perm.trans ?_ (newClassified_append _ _).symm
      refine List.Perm.trans ?_
        (List.Perm.append_right _ (newClassified_append _ _).symm)
      have h1 : newClassified ⟨[], [], [(n, o)]⟩ = [n] := by simp [newClassified]
      rw [h1]
      simp only [List.singleton_append, List.cons_append]
      exact List.Perm.cons n (List.Perm.append (ihc o.getSubNodes) (ihs rest))

theorem allNodes_perm_oldClassified (news : List QtGraphNode) :
    ∀ olds : List QtGraphNode,
      (allNodes olds).Perm (oldClassified (compareForests news olds)) := by
  induction news using forest_induction with
  | hnil =>
    intro olds
    simpa [compareForests_nil, oldClassified] using allNodes_perm_self olds
  | hcons n ns ihc ihs =>
    intro olds
    cases h : findMatch n olds with
    | none =>
      rw [compareForests_cons_none h]
      refine List.Perm.trans ?_ (oldClassified_append _ _).symm
      have h1 : oldClassified ⟨[n], [], []⟩ = [] := by simp [oldClassified]
      rw [h1]
      simpa using ihs olds
    | some p =>
      obtain ⟨o, rest⟩ := p
      rw [compareForests_cons_some h]
      refine List.Perm.trans (allNodes_perm (findMatch_perm h)) ?_
      rw [allNodes_cons]
      refine List.Perm.trans ?_ (oldClassified_append _ _).symm
      refine List.Perm.trans ?_
        (List.Perm.append_right _ (oldClassified_append _ _).symm)
      have h1 : oldClassified ⟨[], [], [(n, o)]⟩ = [o] := by simp [oldClassified]
      rw [h1]
      simp only [List.singleton_append, List.cons_append]
      exact List.Perm.cons o (List.Perm.append (ihc o.getSubNodes) (ihs rest))

theorem exactlyOne_of_nodup {A B C : List Nat} (h : (A ++ (B ++ C)).Nodup) {p : Nat}
    (hp : p ∈ A ++ (B ++ C)) : ExactlyOne (p ∈ A) (p ∈ B) (p ∈ C) := by
  rw [List.nodup_append] at h
  obtain ⟨-, hbc, hd⟩ := h
  rw [List.nodup_append] at hbc
  obtain ⟨-, -, hd2⟩ := hbc
  have e1 : p ∈ A → p ∉ B := fun ha hb => hd ha (List.mem_append_left _ hb)
  have e2 : p ∈ A → p ∉ C := fun ha hc => hd ha (List.mem_append_right _ hc)
  have e3 : p ∈ B → p ∉ C := fun hb hc => hd2 hb hc
  unfold ExactlyOne
  rcases List.mem_append.1 hp with ha | hbc
  · exact Or.inl ⟨ha, e1 ha, e2 ha⟩
  · rcases List.mem_append.1 hbc with hb | hc
    · exact Or.inr (Or.inl ⟨fun ha => e1 ha hb, hb, e3 hb⟩)
    · exact Or.inr (Or.inr ⟨fun ha => e2 ha hc, fun hb => e3 hb hc, hc⟩)

theorem mem_map_ptr_flatMap (l : List QtGraphNode) (p : Nat) :
    p ∈ (l.flatMap descendants).map QtGraphNode.ptr ↔ IsBelowListed l p := by
  simp only [IsBelowListed, List.mem_map, List.mem_flatMap]
  constructor
  · rintro ⟨d, ⟨a, ha, hd⟩, rfl⟩
    exact ⟨a, ha, d, hd, rfl⟩
  · rintro ⟨a, ha, d, hd, rfl⟩
    exact ⟨d, ⟨a, ha, hd⟩, rfl⟩

theorem remaining_mem_nodesMatch (news : List QtGraphNode) :
    ∀ olds : List QtGraphNode, ∀ p ∈ (compareForests news olds).remainingNodes,
      nodesMatch p.1 p.2 = true := by
  induction news using forest_induction with
  | hnil => intro olds p hp; simp [compareForests_nil] at hp
  | hcons n ns ihc ihs =>
    intro olds p hp
    cases h : findMatch n olds with
    | none =>
      rw [compareForests_cons_none h] at hp
      simp only [Correspondence.append, List.nil_append] at hp
      exact ihs olds p hp
    | some q =>
      obtain ⟨o, rest⟩ := q
      rw [compareForests_cons_some h] at hp
      simp only [Correspondence.append, List.mem_append, List.mem_singleton] at hp
      rcases hp with (rfl | hp) | hp
      · obtain ⟨_, _, _, _, hm, _⟩ := findMatch_some h
        exact hm
      · exact ihc _ p hp
      · exact ihs _ p hp

theorem nodesMatch_iff (n o : QtGraphNode) :
    nodesMatch n o = true ↔
      (∃ t, t ≠ 0 ∧ n.kind = .token t ∧ o.kind = .token t) ∨
      (∃ a, n.kind = .access a ∧ o.kind = .access a) := by
  cases n with
  | mk p k ps sz subs =>
    cases o with
    | mk p2 k2 ps2 sz2 subs2 =>
      cases k <;> cases k2 <;>
        simp [nodesMatch, QtGraphNode.getTokenId, QtGraphNode.isAccessNode,
          QtGraphNode.getAccessType, QtGraphNode.kind]
      · intro h; rw [h]
      · constructor <;> intro h <;> exact h.symm

/-! ## Properties of the matcher -/

/-- C1: for forests whose nodes have pairwise distinct addresses, every node of
the new forest, at every depth, is exactly one of: the new member of a remaining
pair, listed in `appearingNodes`, a strict descendant of a node listed in
`appearingNodes`; and every node of the old forest is exactly one of: the old
member of a remaining pair, listed in `vanishingNodes`, a strict descendant of a
node listed in `vanishingNodes`. Each forest is, node for node, a rearrangement
of the three parts of its side. -/
theorem compareNodesRecursive_partition (news olds : List QtGraphNode)
    (hn : ((allNodes news).map QtGraphNode.ptr).Nodup)
    (ho : ((allNodes olds).map QtGraphNode.ptr).Nodup) :
    (∀ n ∈ allNodes news,
      ExactlyOne
        (IsRemainingNew (compareNodesRecursive news olds ⟨[], [], []⟩) n.ptr)
        (IsListed (compareNodesRecursive news olds ⟨[], [], []⟩).appearingNodes n.ptr)
        (IsBelowListed (compareNodesRecursive news olds ⟨[], [], []⟩).appearingNodes n.ptr)) ∧
    (∀ o ∈ allNodes olds,
      ExactlyOne
        (IsRemainingOld (compareNodesRecursive news olds ⟨[], [], []⟩) o.ptr)
        (IsListed (compareNodesRecursive news olds ⟨[], [], []⟩).vanishingNodes o.ptr)
        (IsBelowListed (compareNodesRecursive news olds ⟨[], [], []⟩).vanishingNodes o.ptr)) ∧
    ((allNodes news).map QtGraphNode.ptr).Perm
      ((newClassified (compareNodesRecursive news olds ⟨[], [], []⟩)).map QtGraphNode.ptr) ∧
    ((allNodes olds).map QtGraphNode.ptr).Perm
      ((oldClassified (compareNodesRecursive news olds ⟨[], [], []⟩)).map QtGraphNode.ptr) := by
  have pn := (allNodes_perm_newClassified news olds).map QtGraphNode.ptr
  have po := (allNodes_perm_oldClassified news olds).map QtGraphNode.ptr
  have hn2 := pn.nodup_iff.1 hn
  have ho2 := po.nodup_iff.1 ho
  refine ⟨?_, ?_, pn, po⟩ <;>
    simp only [newClassified, oldClassified, List.map_append, List.map_map] at pn po hn2 ho2 <;>
    simp only [compareForests] at pn po hn2 ho2
  · intro n hmem
    have hp : n.ptr ∈ (allNodes news).map QtGraphNode.ptr := List.mem_map_of_mem _ hmem
    have := exactlyOne_of_nodup hn2 (pn.mem_iff.1 hp)
    simpa only [IsRemainingNew, IsListed, ← mem_map_ptr_flatMap, List.mem_map,
      Function.comp_apply] using this
  · intro o hmem
    have hp : o.ptr ∈ (allNodes olds).map QtGraphNode.ptr := List.mem_map_of_mem _ hmem
    have := exactlyOne_of_nodup ho2 (po.mem_iff.1 hp)
    simpa only [IsRemainingOld, IsListed, ← mem_map_ptr_flatMap, List.mem_map,
      Function.comp_apply] using this

/-- Instance of C1 on the forests of the worked example: all addresses are
distinct, so every node of `[A', D]` and of `[A, B]` is classified in exactly
one way. -/
theorem compareNodesRecursive_partition_witness :
    ((allNodes [newA, newD]).map QtGraphNode.ptr).Nodup ∧
    ((allNodes [oldA, oldB]).map QtGraphNode.ptr).Nodup ∧
    (∀ n ∈ allNodes [newA, newD],
      ExactlyOne
        (IsRemainingNew (compareNodesRecursive [newA, newD] [oldA, oldB] ⟨[], [], []⟩) n.ptr)
        (IsListed
          (compareNodesRecursive [newA, newD] [oldA, oldB] ⟨[], [], []⟩).appearingNodes n.ptr)
        (IsBelowListed
          (compareNodesRecursive [newA, newD] [oldA, oldB] ⟨[], [], []⟩).appearingNodes
          n.ptr)) ∧
    (∀ o ∈ allNodes [oldA, oldB],
      ExactlyOne
        (IsRemainingOld (compareNodesRecursive [newA, newD] [oldA, oldB] ⟨[], [], []⟩) o.ptr)
        (IsListed
          (compareNodesRecursive [newA, newD] [oldA, oldB] ⟨[], [], []⟩).vanishingNodes o.ptr)
        (IsBelowListed
          (compareNodesRecursive [newA, newD] [oldA, oldB] ⟨[], [], []⟩).vanishingNodes
          o.ptr)) ∧
    ((allNodes [newA, newD]).map QtGraphNode.ptr).Perm
      ((newClassified (compareNodesRecursive [newA, newD] [oldA, oldB] ⟨[], [], []⟩)).map
        QtGraphNode.ptr) ∧
    ((allNodes [oldA, oldB]).map QtGraphNode.ptr).Perm
      ((oldClassified (compareNodesRecursive [newA, newD] [oldA, oldB] ⟨[], [], []⟩)).map
        QtGraphNode.ptr) :=
  ⟨by decide, by decide,
    compareNodesRecursive_partition [newA, newD] [oldA, oldB] (by decide) (by decide)⟩

/-- C2: for forests whose nodes have pairwise distinct addresses, no new node is
the first component of two entries of `remainingNodes` and no old node is the
second component of two entries: the addresses of the first components are
duplicate-free, so are those of the second components, and two entries that
agree in either component are the same entry. -/
theorem remainingNodes_one_to_one (news olds : List QtGraphNode)
    (hn : ((allNodes news).map QtGraphNode.ptr).Nodup)
    (ho : ((allNodes olds).map QtGraphNode.ptr).Nodup) :
    ((compareNodesRecursive news olds ⟨[], [], []⟩).remainingNodes.map
      (fun p => p.1.ptr)).Nodup ∧
    ((compareNodesRecursive news olds ⟨[], [], []⟩).remainingNodes.map
      (fun p => p.2.ptr)).Nodup ∧
    (∀ p ∈ (compareNodesRecursive news olds ⟨[], [], []⟩).remainingNodes,
      ∀ q ∈ (compareNodesRecursive news olds ⟨[], [], []⟩).remainingNodes,
        p.1.ptr = q.1.ptr ∨ p.2.ptr = q.2.ptr → p = q) := by
  have pn := (allNodes_perm_newClassified news olds).map QtGraphNode.ptr
  have po := (allNodes_perm_oldClassified news olds).map QtGraphNode.ptr
  have hn2 := pn.nodup_iff.1 hn
  have ho2 := po.nodup_iff.1 ho
  simp only [newClassified, oldClassified, List.map_append, List.map_map] at hn2 ho2
  simp only [compareForests] at hn2 ho2
  have h1 := (List.nodup_append.1 hn2).1
  have h2 := (List.nodup_append.1 ho2).1
  refine ⟨h1, h2, ?_⟩
  intro p hp q hq hpq
  rcases hpq with e | e
  · exact List.inj_on_of_nodup_map h1 hp hq e
  · exact List.inj_on_of_nodup_map h2 hp hq e

/-- Instance of C2 on the forests of the worked example. -/
theorem remainingNodes_one_to_one_witness :
    ((allNodes [newA, newD]).map QtGraphNode.ptr).Nodup ∧
    ((allNodes [oldA, oldB]).map QtGraphNode.ptr).Nodup ∧
    ((compareNodesRecursive [newA, newD] [oldA, oldB] ⟨[], [], []⟩).remainingNodes.map
      (fun p => p.1.ptr)).Nodup ∧
    ((compareNodesRecursive [newA, newD] [oldA, oldB] ⟨[], [], []⟩).remainingNodes.map
      (fun p => p.2.ptr)).Nodup ∧
    (∀ p ∈ (compareNodesRecursive [newA, newD] [oldA, oldB] ⟨[], [], []⟩).remainingNodes,
      ∀ q ∈ (compareNodesRecursive [newA, newD] [oldA, oldB] ⟨[], [], []⟩).remainingNodes,
        p.1.ptr = q.1.ptr ∨ p.2.ptr = q.2.ptr → p = q) :=
  ⟨by decide, by decide,
    remainingNodes_one_to_one [newA, newD] [oldA, oldB] (by decide) (by decide)⟩

/-- C3: every entry `(new, old)` of `remainingNodes` is either a pair of token
nodes carrying the same non-zero token identifier, or a pair of access nodes,
both without token identifier, with equal access type; in particular two access
nodes with different access types are never paired, and an access node is never
paired with a token node. -/
theorem remainingNodes_match_rule (news olds : List QtGraphNode) :
    ∀ p ∈ (compareNodesRecursive news olds ⟨[], [], []⟩).remainingNodes,
      ((p.1.getTokenId ≠ 0 ∧ p.1.getTokenId = p.2.getTokenId ∧
          p.1.isAccessNode = false ∧ p.2.isAccessNode = false) ∨
        (p.1.isAccessNode = true ∧ p.2.isAccessNode = true ∧
          p.1.getTokenId = 0 ∧ p.2.getTokenId = 0 ∧
          p.1.getAccessType = p.2.getAccessType)) ∧
      (p.1.isAccessNode = true → p.2.isAccessNode = true →
        p.1.getAccessType = p.2.getAccessType) ∧
      p.1.isAccessNode = p.2.isAccessNode := by
  intro p hp
  have hm := remaining_mem_nodesMatch news olds p hp
  rw [nodesMatch_iff] at hm
  rcases hm with ⟨t, ht, h1, h2⟩ | ⟨a, h1, h2⟩
  · simp [QtGraphNode.getTokenId, QtGraphNode.isAccessNode, QtGraphNode.getAccessType,
      h1, h2, ht]
  · simp [QtGraphNode.getTokenId, QtGraphNode.isAccessNode, QtGraphNode.getAccessType,
      h1, h2]

/-- Instance of C3: the pair `(D, B)` of the worked example is in
`remainingNodes`, and it is a pair of access nodes of equal access type. -/
theorem remainingNodes_match_rule_witness :
    (newD, oldB) ∈ (compareNodesRecursive [newA, newD] [oldA, oldB]
      ⟨[], [], []⟩).remainingNodes ∧
    ((((newD, oldB).1.getTokenId ≠ 0 ∧
          (newD, oldB).1.getTokenId = (newD, oldB).2.getTokenId ∧
          (newD, oldB).1.isAccessNode = false ∧ (newD, oldB).2.isAccessNode = false) ∨
        ((newD, oldB).1.isAccessNode = true ∧ (newD, oldB).2.isAccessNode = true ∧
          (newD, oldB).1.getTokenId = 0 ∧ (newD, oldB).2.getTokenId = 0 ∧
          (newD, oldB).1.getAccessType = (newD, oldB).2.getAccessType)) ∧
      ((newD, oldB).1.isAccessNode = true → (newD, oldB).2.isAccessNode = true →
        (newD, oldB).1.getAccessType = (newD, oldB).2.getAccessType) ∧
      (newD, oldB).1.isAccessNode = (newD, oldB).2.isAccessNode) :=
  ⟨List.mem_cons_of_mem _ (List.mem_cons_self _ _),
    remainingNodes_match_rule [newA, newD] [oldA, oldB] (newD, oldB)
      (List.mem_cons_of_mem _ (List.mem_cons_self _ _))⟩

/-- C10: on the worked example the matcher returns the remaining pairs `(A', A)`
(equal token 1) and `(D, B)` (both access nodes, public), `vanishingNodes = [C]`
and `appearingNodes = []`; `createTransition` then builds a plan and calls
`hideLabel` on `B` and on no other node. -/
theorem example_transition (edges oldEdges : List QtGraphEdge) :
    compareNodesRecursive [newA, newD] [oldA, oldB] ⟨[], [], []⟩ =
      ⟨[], [oldC], [(newA, oldA), (newD, oldB)]⟩ ∧
    (newA.getTokenId = 1 ∧ oldA.getTokenId = 1) ∧
    (newD.getAccessType = some AccessType.ACCESS_PUBLIC ∧
      oldB.getAccessType = some AccessType.ACCESS_PUBLIC ∧
      newD.getSubNodes = [] ∧ oldB.getSubNodes = [oldC]) ∧
    (createTransition (exampleState edges oldEdges)).calls =
      [SceneCall.setShadowEnabledRecursive newA.ptr false,
       SceneCall.setShadowEnabledRecursive newD.ptr false,
       SceneCall.setShadowEnabledRecursive oldA.ptr false,
       SceneCall.setShadowEnabledRecursive oldB.ptr false,
       SceneCall.hide newA.ptr,
       SceneCall.hide newD.ptr,
       SceneCall.hideLabel oldB.ptr] ++
      edges.map (fun edge => SceneCall.setOpacity edge.ptr 0) ∧
    (∀ node, SceneCall.hideLabel node ∈ (createTransition (exampleState edges oldEdges)).calls ↔
      node = oldB.ptr) ∧
    (∃ plan, (createTransition (exampleState edges oldEdges)).m_transition = some plan ∧
      remainGroup [(newA, oldA), (newD, oldB)] ∈ plan.groups) := by
  have hc : compareNodesRecursive [newA, newD] [oldA, oldB] ⟨[], [], []⟩ =
      ⟨[], [oldC], [(newA, oldA), (newD, oldB)]⟩ := by rfl
  have hcalls : (createTransition (exampleState edges oldEdges)).calls =
      [SceneCall.setShadowEnabledRecursive newA.ptr false,
       SceneCall.setShadowEnabledRecursive newD.ptr false,
       SceneCall.setShadowEnabledRecursive oldA.ptr false,
       SceneCall.setShadowEnabledRecursive oldB.ptr false,
       SceneCall.hide newA.ptr,
       SceneCall.hide newD.ptr,
       SceneCall.hideLabel oldB.ptr] ++
      edges.map (fun edge => SceneCall.setOpacity edge.ptr 0) := by
    simp only [createTransition, exampleState, hc]
    cases edges <;> simp [remainCalls, QtGraphNode.isAccessNode, QtGraphNode.getSubNodes,
      QtGraphNode.kind, newA, newD, oldA, oldB, oldC, QtGraphNode.ptr]
  refine ⟨hc, ⟨rfl, rfl⟩, ⟨rfl, rfl, rfl, rfl⟩, hcalls, ?_, ?_⟩
  · intro node
    rw [hcalls]
    simp [QtGraphNode.ptr, oldB, eq_comm]
  · simp only [createTransition, exampleState, hc]
    simp

/-! ## Properties of the transition -/

/-- C6: when the matcher returns an empty `appearingNodes` and an empty
`vanishingNodes`, `createTransition` is exactly `switchToNewGraphData`: no
transition is stored or started, interactivity is untouched, the only calls made
are the scene rectangle update and the hover probe, whatever the edge lists. -/
theorem createTransition_fast_path (s : State)
    (ha : (compareNodesRecursive s.m_nodes s.m_oldNodes ⟨[], [], []⟩).appearingNodes = [])
    (hv : (compareNodesRecursive s.m_nodes s.m_oldNodes ⟨[], [], []⟩).vanishingNodes = []) :
    createTransition s = switchToNewGraphData s ∧
    (createTransition s).m_transition = s.m_transition ∧
    (createTransition s).interactive = s.interactive ∧
    (createTransition s).calls = s.calls ++
      [SceneCall.setSceneRect (s.m_nodes.map QtGraphNode.ptr) 25 s.m_sceneRectOffset,
       SceneCall.hoverItemUnderCursor] := by
  have h : createTransition s = switchToNewGraphData s := by
    simp [createTransition, ha, hv]
  rw [h]
  simp [switchToNewGraphData, doResize]

/-- Instance of C6: the forests `[A']` and `[A]` match without appearing or
vanishing node, the edge lists are non-empty and differ, and the swap is taken. -/
theorem createTransition_fast_path_witness :
    (compareNodesRecursive edgeOnlyState.m_nodes edgeOnlyState.m_oldNodes
      ⟨[], [], []⟩).appearingNodes = [] ∧
    (compareNodesRecursive edgeOnlyState.m_nodes edgeOnlyState.m_oldNodes
      ⟨[], [], []⟩).vanishingNodes = [] ∧
    edgeOnlyState.m_edges ≠ [] ∧ edgeOnlyState.m_oldEdges ≠ [] ∧
    edgeOnlyState.m_edges ≠ edgeOnlyState.m_oldEdges ∧
    (createTransition edgeOnlyState = switchToNewGraphData edgeOnlyState ∧
    (createTransition edgeOnlyState).m_transition = edgeOnlyState.m_transition ∧
    (createTransition edgeOnlyState).interactive = edgeOnlyState.interactive ∧
    (createTransition edgeOnlyState).calls = edgeOnlyState.calls ++
      [SceneCall.setSceneRect (edgeOnlyState.m_nodes.map QtGraphNode.ptr) 25
        edgeOnlyState.m_sceneRectOffset,
       SceneCall.hoverItemUnderCursor]) :=
  ⟨rfl, rfl, by decide, by decide, by decide,
    createTransition_fast_path edgeOnlyState rfl rfl⟩

theorem duration_le_groupDuration (g : QParallelAnimationGroup) :
    ∀ a ∈ g.animations, a.duration ≤ groupDuration g := by
  unfold groupDuration
  induction g.animations with
  | nil => intro a ha; simp at ha
  | cons b bs ih =>
    intro a ha
    simp only [List.map_cons, List.foldr_cons]
    rcases List.mem_cons.1 ha with rfl | ha
    · exact le_max_left _ _
    · exact le_trans (ih a ha) (le_max_right _ _)

theorem le_finishTime (gs : List QParallelAnimationGroup) :
    ∀ t, t ≤ finishTime gs t := by
  induction gs with
  | nil => intro t; simp [finishTime]
  | cons g gs ih =>
    intro t
    simp only [finishTime]
    exact le_trans (Nat.le_add_right _ _) (ih _)

theorem schedule_start_ge (gs : List QParallelAnimationGroup) :
    ∀ t, ∀ x ∈ schedule gs t, t ≤ x.start := by
  induction gs with
  | nil => intro t x hx; simp [schedule] at hx
  | cons g gs ih =>
    intro t x hx
    simp only [schedule, List.mem_append, List.mem_map] at hx
    rcases hx with ⟨a, _, rfl⟩ | hx
    · exact le_refl _
    · exact le_trans (Nat.le_add_right _ _) (ih _ x hx)

theorem schedule_stop_le_finishTime (gs : List QParallelAnimationGroup) :
    ∀ t, ∀ x ∈ schedule gs t, x.stop ≤ finishTime gs t := by
  induction gs with
  | nil => intro t x hx; simp [schedule] at hx
  | cons g gs ih =>
    intro t x hx
    simp only [schedule, List.mem_append, List.mem_map] at hx
    simp only [finishTime]
    rcases hx with ⟨a, ha, rfl⟩ | hx
    · exact le_trans (Nat.add_le_add_left (duration_le_groupDuration g a ha) t)
        (le_finishTime gs _)
    · exact ih _ x hx

theorem schedule_phase_mem (gs : List QParallelAnimationGroup) :
    ∀ t, ∀ x ∈ schedule gs t, x.phase ∈ gs.map (fun g => g.phase) := by
  induction gs with
  | nil => intro t x hx; simp [schedule] at hx
  | cons g gs ih =>
    intro t x hx
    simp only [schedule, List.mem_append, List.mem_map] at hx
    rcases hx with ⟨a, _, rfl⟩ | hx
    · simp
    · exact List.mem_of_mem_tail (by simpa using ih _ x hx)

theorem schedule_ordered (gs : List QParallelAnimationGroup) :
    (gs.map (fun g => g.phase.index)).Pairwise (fun i j => i < j) →
    ∀ t, ∀ x ∈ schedule gs t, ∀ y ∈ schedule gs t,
      x.phase.index < y.phase.index → x.stop ≤ y.start := by
  induction gs with
  | nil => intro _ t x hx; simp [schedule] at hx
  | cons g gs ih =>
    intro hp t x hx y hy hlt
    simp only [List.map_cons, List.pairwise_cons] at hp
    obtain ⟨hg, hrest⟩ := hp
    have later : ∀ z ∈ schedule gs (t + groupDuration g), g.phase.index < z.phase.index := by
      intro z hz
      have hm := schedule_phase_mem gs _ z hz
      obtain ⟨g2, hg2, e⟩ := List.mem_map.1 hm
      rw [← e]
      exact hg _ (List.mem_map_of_mem _ hg2)
    simp only [schedule, List.mem_append, List.mem_map] at hx hy
    rcases hx with ⟨a, ha, rfl⟩ | hx
    · rcases hy with ⟨b, _, rfl⟩ | hy
      · exact absurd hlt (lt_irrefl _)
      · exact le_trans (Nat.add_le_add_left (duration_le_groupDuration g a ha) t)
          (schedule_start_ge gs _ y hy)
    · rcases hy with ⟨b, _, rfl⟩ | hy
      · exact absurd (lt_trans (later x hx) hlt) (lt_irrefl _)
      · exact ih hrest _ x hx y hy hlt

theorem selection_sublist {α : Type} (b1 b2 b3 : Bool) (x y z : α) :
    List.Sublist ((if b1 then [x] else []) ++ (if b2 then [y] else []) ++
      (if b3 then [z] else [])) [x, y, z] := by
  cases b1 <;> cases b2 <;> cases b3 <;> simp

theorem createTransition_groups (s : State)
    (h : (compareNodesRecursive s.m_nodes s.m_oldNodes ⟨[], [], []⟩).vanishingNodes ≠ [] ∨
      (compareNodesRecursive s.m_nodes s.m_oldNodes ⟨[], [], []⟩).appearingNodes ≠ []) :
    (createTransition s).m_transition = some
      ⟨(if (compareNodesRecursive s.m_nodes s.m_oldNodes ⟨[], [], []⟩).vanishingNodes.length != 0
            || s.m_oldEdges.length != 0
          then [vanishGroup
            (compareNodesRecursive s.m_nodes s.m_oldNodes ⟨[], [], []⟩).vanishingNodes
            s.m_oldEdges] else []) ++
        (if (compareNodesRecursive s.m_nodes s.m_oldNodes ⟨[], [], []⟩).remainingNodes.length
            != 0
          then [remainGroup
            (compareNodesRecursive s.m_nodes s.m_oldNodes ⟨[], [], []⟩).remainingNodes]
          else []) ++
        (if (compareNodesRecursive s.m_nodes s.m_oldNodes ⟨[], [], []⟩).appearingNodes.length
            != 0 || s.m_edges.length != 0
          then [appearGroup
            (compareNodesRecursive s.m_nodes s.m_oldNodes ⟨[], [], []⟩).appearingNodes
            s.m_edges] else []),
        [Slot.finishedTransition], true⟩ ∧
    (createTransition s).interactive = false := by
  have hc : ((compareNodesRecursive s.m_nodes s.m_oldNodes ⟨[], [], []⟩).vanishingNodes.length
      == 0 &&
      (compareNodesRecursive s.m_nodes s.m_oldNodes ⟨[], [], []⟩).appearingNodes.length == 0)
      = false := by
    rcases h with h | h
    · simp [h]
    · simp [h]
  simp only [createTransition, hc]
  simp

/-- C7: when `createTransition` does not take the fast path, it stores and
starts a sequential plan whose groups are an order-preserving selection from
`[vanish, remain, appear]`; the vanish group is present iff `vanishingNodes` or
`m_oldEdges` is non-empty, the remain group iff `remainingNodes` is non-empty,
the appear group iff `appearingNodes` or `m_edges` is non-empty; executed
sequentially from any time `t`, every animation of an earlier phase has
completed when an animation of a later phase starts, and `finished()`, to which
`finishedTransition` is the connected slot, comes after every animation has
completed; interactivity is disabled. -/
theorem createTransition_plan (s : State)
    (h : (compareNodesRecursive s.m_nodes s.m_oldNodes ⟨[], [], []⟩).vanishingNodes ≠ [] ∨
      (compareNodesRecursive s.m_nodes s.m_oldNodes ⟨[], [], []⟩).appearingNodes ≠ []) :
    ∃ plan : QSequentialAnimationGroup,
      (createTransition s).m_transition = some plan ∧
      plan.started = true ∧
      plan.finished = [Slot.finishedTransition] ∧
      (createTransition s).interactive = false ∧
      List.Sublist plan.groups
        [vanishGroup
            (compareNodesRecursive s.m_nodes s.m_oldNodes ⟨[], [], []⟩).vanishingNodes
            s.m_oldEdges,
          remainGroup
            (compareNodesRecursive s.m_nodes s.m_oldNodes ⟨[], [], []⟩).remainingNodes,
          appearGroup
            (compareNodesRecursive s.m_nodes s.m_oldNodes ⟨[], [], []⟩).appearingNodes
            s.m_edges] ∧
      (Phase.vanish ∈ plan.groups.map (fun g => g.phase) ↔
        ((compareNodesRecursive s.m_nodes s.m_oldNodes ⟨[], [], []⟩).vanishingNodes ≠ [] ∨
          s.m_oldEdges ≠ [])) ∧
      (Phase.remain ∈ plan.groups.map (fun g => g.phase) ↔
        (compareNodesRecursive s.m_nodes s.m_oldNodes ⟨[], [], []⟩).remainingNodes ≠ []) ∧
      (Phase.appear ∈ plan.groups.map (fun g => g.phase) ↔
        ((compareNodesRecursive s.m_nodes s.m_oldNodes ⟨[], [], []⟩).appearingNodes ≠ [] ∨
          s.m_edges ≠ [])) ∧
      (∀ t, ∀ x ∈ schedule plan.groups t, ∀ y ∈ schedule plan.groups t,
        x.phase.index < y.phase.index → x.stop ≤ y.start) ∧
      (∀ t, ∀ x ∈ schedule plan.groups t, x.stop ≤ finishTime plan.groups t) := by
  obtain ⟨hplan, hint⟩ := createTransition_groups s h
  refine ⟨_, hplan, rfl, rfl, hint, ?_, ?_, ?_, ?_, ?_, ?_⟩
  · exact selection_sublist _ _ _ _ _ _
  · by_cases c1 : (compareNodesRecursive s.m_nodes s.m_oldNodes
        ⟨[], [], []⟩).vanishingNodes = [] <;>
    by_cases c2 : s.m_oldEdges = [] <;>
    by_cases c3 : (compareNodesRecursive s.m_nodes s.m_oldNodes
        ⟨[], [], []⟩).remainingNodes = [] <;>
    by_cases c4 : (compareNodesRecursive s.m_nodes s.m_oldNodes
        ⟨[], [], []⟩).appearingNodes = [] <;>
    by_cases c5 : s.m_edges = [] <;>
    simp [c1, c2, c3, c4, c5, vanishGroup, remainGroup, appearGroup]
  · by_cases c1 : (compareNodesRecursive s.m_nodes s.m_oldNodes
        ⟨[], [], []⟩).vanishingNodes = [] <;>
    by_cases c2 : s.m_oldEdges = [] <;>
    by_cases c3 : (compareNodesRecursive s.m_nodes s.m_oldNodes
        ⟨[], [], []⟩).remainingNodes = [] <;>
    by_cases c4 : (compareNodesRecursive s.m_nodes s.m_oldNodes
        ⟨[], [], []⟩).appearingNodes = [] <;>
    by_cases c5 : s.m_edges = [] <;>
    simp [c1, c2, c3, c4, c5, vanishGroup, remainGroup, appearGroup]
  · by_cases c1 : (compareNodesRecursive s.m_nodes s.m_oldNodes
        ⟨[], [], []⟩).vanishingNodes = [] <;>
    by_cases c2 : s.m_oldEdges = [] <;>
    by_cases c3 : (compareNodesRecursive s.m_nodes s.m_oldNodes
        ⟨[], [], []⟩).remainingNodes = [] <;>
    by_cases c4 : (compareNodesRecursive s.m_nodes s.m_oldNodes
        ⟨[], [], []⟩).appearingNodes = [] <;>
    by_cases c5 : s.m_edges = [] <;>
    simp [c1, c2, c3, c4, c5, vanishGroup, remainGroup, appearGroup]
  · apply schedule_ordered
    have hs := (selection_sublist
      ((compareNodesRecursive s.m_nodes s.m_oldNodes ⟨[], [], []⟩).vanishingNodes.length != 0
        || s.m_oldEdges.length != 0)
      ((compareNodesRecursive s.m_nodes s.m_oldNodes ⟨[], [], []⟩).remainingNodes.length != 0)
      ((compareNodesRecursive s.m_nodes s.m_oldNodes ⟨[], [], []⟩).appearingNodes.length != 0
        || s.m_edges.length != 0)
      (vanishGroup
        (compareNodesRecursive s.m_nodes s.m_oldNodes ⟨[], [], []⟩).vanishingNodes
        s.m_oldEdges)
      (remainGroup
        (compareNodesRecursive s.m_nodes s.m_oldNodes ⟨[], [], []⟩).remainingNodes)
      (appearGroup
        (compareNodesRecursive s.m_nodes s.m_oldNodes ⟨[], [], []⟩).appearingNodes
        s.m_edges)).map (fun g => g.phase.index)
    refine List.Pairwise.sublist hs ?_
    simp [vanishGroup, remainGroup, appearGroup, Phase.index]
  · intro t x hx
    exact schedule_stop_le_finishTime _ t x hx

/-- Instance of C7 on the worked example without edges: `C` vanishes, so the
slow path is taken and a started plan with ordered phases is stored. -/
theorem createTransition_plan_witness :
    ((compareNodesRecursive (exampleState [] []).m_nodes (exampleState [] []).m_oldNodes
        ⟨[], [], []⟩).vanishingNodes ≠ [] ∨
      (compareNodesRecursive (exampleState [] []).m_nodes (exampleState [] []).m_oldNodes
        ⟨[], [], []⟩).appearingNodes ≠ []) ∧
    ∃ plan : QSequentialAnimationGroup,
      (createTransition (exampleState [] [])).m_transition = some plan ∧
      plan.started = true ∧
      plan.finished = [Slot.finishedTransition] ∧
      (∀ t, ∀ x ∈ schedule plan.groups t, ∀ y ∈ schedule plan.groups t,
        x.phase.index < y.phase.index → x.stop ≤ y.start) ∧
      (∀ t, ∀ x ∈ schedule plan.groups t, x.stop ≤ finishTime plan.groups t) :=
  ⟨Or.inl (List.cons_ne_nil oldC []),
    (createTransition_plan (exampleState [] []) (Or.inl (List.cons_ne_nil oldC []))).elim
      (fun plan hp => ⟨plan, hp.1, hp.2.1, hp.2.2.1, hp.2.2.2.2.2.2.2.2.1,
        hp.2.2.2.2.2.2.2.2.2⟩)⟩

theorem swap_drops_previous_generation (s : State)
    (hnodes : ∀ n ∈ allNodes s.m_oldNodes, n.ptr ∉ (allNodes s.m_nodes).map QtGraphNode.ptr)
    (hedges : ∀ e ∈ s.m_oldEdges, e.ptr ∉ s.m_edges.map QtGraphEdge.ptr) :
    (switchToNewGraphData s).m_oldNodes = s.m_nodes ∧
    (switchToNewGraphData s).m_oldEdges = s.m_edges ∧
    (switchToNewGraphData s).m_oldGraph = s.m_graph ∧
    (switchToNewGraphData s).m_graph = s.m_graph ∧
    (switchToNewGraphData s).m_nodes = [] ∧
    (switchToNewGraphData s).m_edges = [] ∧
    (∀ n ∈ allNodes s.m_oldNodes,
      n.ptr ∉ (allNodes ((switchToNewGraphData s).m_nodes ++
        (switchToNewGraphData s).m_oldNodes)).map QtGraphNode.ptr) ∧
    (∀ e ∈ s.m_oldEdges,
      e.ptr ∉ ((switchToNewGraphData s).m_edges ++
        (switchToNewGraphData s).m_oldEdges).map QtGraphEdge.ptr) ∧
    (switchToNewGraphData s).interactive = s.interactive := by
  refine ⟨rfl, rfl, rfl, rfl, rfl, rfl, ?_, ?_, rfl⟩
  · simpa [switchToNewGraphData, doResize] using hnodes
  · simpa [switchToNewGraphData, doResize] using hedges

theorem installGraphData_fields (b : BuiltGraph) (s : State) :
    (installGraphData b s).m_nodes = b.nodes ∧
    (installGraphData b s).m_edges = b.edges ∧
    (installGraphData b s).m_oldNodes = s.m_oldNodes ∧
    (installGraphData b s).m_oldEdges = s.m_oldEdges ∧
    (installGraphData b s).interactive = s.interactive := by
  unfold installGraphData
  cases b.graph <;> exact ⟨rfl, rfl, rfl, rfl, rfl⟩

theorem createTransition_lists (s : State) :
    ((createTransition s).m_nodes = [] ∧ (createTransition s).m_edges = []) ∨
    ((createTransition s).m_nodes = s.m_nodes ∧ (createTransition s).m_edges = s.m_edges ∧
      (createTransition s).m_oldNodes = s.m_oldNodes ∧
      (createTransition s).m_oldEdges = s.m_oldEdges) := by
  unfold createTransition
  simp only []
  split
  · exact Or.inl ⟨rfl, rfl⟩
  · exact Or.inr ⟨rfl, rfl, rfl, rfl⟩

theorem reachable_generations_disjoint (s : State) (h : Reachable s) :
    (∀ n ∈ allNodes s.m_oldNodes, n.ptr ∉ (allNodes s.m_nodes).map QtGraphNode.ptr) ∧
    (∀ e ∈ s.m_oldEdges, e.ptr ∉ s.m_edges.map QtGraphEdge.ptr) := by
  induction h with
  | initial => simp [initialState, allNodes]
  | rebuild b s _ _ hf _ =>
    obtain ⟨f1, f2, f3, f4, -⟩ := installGraphData_fields b s
    unfold doRebuildGraph
    rcases createTransition_lists (installGraphData b s) with ⟨h1, h2⟩ | ⟨h1, h2, h3, h4⟩
    · simp [h1, h2, allNodes]
    · rw [h1, h2, h3, h4, f1, f2, f3, f4]
      exact hf
  | finished s _ _ _ => simp [finishedTransition, switchToNewGraphData, doResize, allNodes]
  | clear s _ _ => simp [doClear, allNodes]
  | resize s _ ih => simpa [doResize] using ih

theorem entry_generations_disjoint (pre : State) (h : EntersCreateTransition pre) :
    (∀ n ∈ allNodes pre.m_oldNodes, n.ptr ∉ (allNodes pre.m_nodes).map QtGraphNode.ptr) ∧
    (∀ e ∈ pre.m_oldEdges, e.ptr ∉ pre.m_edges.map QtGraphEdge.ptr) ∧
    pre.interactive = true := by
  obtain ⟨b, s, _, hi, hf, rfl⟩ := h
  obtain ⟨f1, f2, f3, f4, f5⟩ := installGraphData_fields b s
  rw [f1, f2, f3, f4, f5]
  exact ⟨hf.1, hf.2, hi⟩

theorem sameForest_cons (n : QtGraphNode) (ns : List QtGraphNode) (o : QtGraphNode)
    (os : List QtGraphNode) :
    sameForest (n :: ns) (o :: os) =
      (decide (n.kind = o.kind) && sameForest n.getSubNodes o.getSubNodes &&
        sameForest ns os) := by
  cases n with
  | mk p k ps sz subs => simp [sameForest, sameNode, QtGraphNode.kind, QtGraphNode.getSubNodes]

theorem counterparts_cons (n : QtGraphNode) (ns : List QtGraphNode) (o : QtGraphNode)
    (os : List QtGraphNode) :
    counterparts (n :: ns) (o :: os) =
      (n, o) :: (counterparts n.getSubNodes o.getSubNodes ++ counterparts ns os) := by
  cases n with
  | mk p k ps sz subs => simp [counterparts, nodeCounterparts, QtGraphNode.getSubNodes]

theorem compareForests_same (news : List QtGraphNode) :
    ∀ olds : List QtGraphNode, sameForest news olds = true →
      (∀ o ∈ allNodes olds, o.getTokenId ≠ 0 ∨ o.isAccessNode = true) →
      compareForests news olds = ⟨[], [], counterparts news olds⟩ := by
  induction news using forest_induction with
  | hnil =>
    intro olds hs _
    cases olds with
    | nil => simp [compareForests_nil, counterparts]
    | cons o os => simp [sameForest] at hs
  | hcons n ns ihc ihs =>
    intro olds hs hv
    cases olds with
    | nil => simp [sameForest] at hs
    | cons o os =>
      rw [sameForest_cons] at hs
      simp only [Bool.and_eq_true, decide_eq_true_eq] at hs
      obtain ⟨⟨hk, hsub⟩, hrest⟩ := hs
      rw [allNodes_cons] at hv
      have ho : o.getTokenId ≠ 0 ∨ o.isAccessNode = true := hv o (by simp)
      have hm : nodesMatch n o = true := by
        rw [nodesMatch_iff]
        cases hko : o.kind with
        | token t =>
          left
          refine ⟨t, ?_, by rw [hk, hko], rfl⟩
          rcases ho with h | h
          · simpa [QtGraphNode.getTokenId, hko] using h
          · simp [QtGraphNode.isAccessNode, hko] at h
        | access a => right; exact ⟨a, by rw [hk, hko], rfl⟩
      have hf : findMatch n (o :: os) = some (o, os) := by simp [findMatch, hm]
      rw [compareForests_cons_some hf,
        ihc o.getSubNodes hsub (fun x hx => hv x (by simp [descendants, hx])),
        ihs os hrest (fun x hx => hv x (by simp [hx])), counterparts_cons]
      simp [Correspondence.append]

/-- C9: when the new forest is identical to the old one (same token identifiers
and access types, same shape and sibling order) and every node of the old
forest carries a non-zero token identifier or is an access node, the matcher
returns an empty `appearingNodes`, an empty `vanishingNodes` and pairs every
node with its counterpart; `createTransition` then is the immediate swap and
stores no plan. -/
theorem identical_forests_fast_path (news olds : List QtGraphNode)
    (hs : sameForest news olds = true)
    (hv : ∀ o ∈ allNodes olds, o.getTokenId ≠ 0 ∨ o.isAccessNode = true) :
    compareNodesRecursive news olds ⟨[], [], []⟩ = ⟨[], [], counterparts news olds⟩ ∧
    ∀ s : State, s.m_nodes = news → s.m_oldNodes = olds →
      createTransition s = switchToNewGraphData s ∧
      (createTransition s).m_transition = s.m_transition ∧
      (createTransition s).interactive = s.interactive := by
  have h := compareForests_same news olds hs hv
  simp only [compareForests] at h
  refine ⟨h, ?_⟩
  intro s h1 h2
  have hc : createTransition s = switchToNewGraphData s := by
    simp [createTransition, h1, h2, h]
  rw [hc]
  simp [switchToNewGraphData, doResize]

/-- Instance of C9: a copy of the forest `[A, B]` of the worked example matched
against `[A, B]`. -/
theorem identical_forests_fast_path_witness :
    sameForest copyOfOld [oldA, oldB] = true ∧
    (∀ o ∈ allNodes [oldA, oldB], o.getTokenId ≠ 0 ∨ o.isAccessNode = true) ∧
    (compareNodesRecursive copyOfOld [oldA, oldB] ⟨[], [], []⟩ =
      ⟨[], [], counterparts copyOfOld [oldA, oldB]⟩ ∧
    ∀ s : State, s.m_nodes = copyOfOld → s.m_oldNodes = [oldA, oldB] →
      createTransition s = switchToNewGraphData s ∧
      (createTransition s).m_transition = s.m_transition ∧
      (createTransition s).interactive = s.interactive) :=
  ⟨by decide, by decide,
    identical_forests_fast_path copyOfOld [oldA, oldB] (by decide) (by decide)⟩

/-! ## Token identity -/

theorem isAccessNode_of_getTokenId_ne_zero {n : QtGraphNode} (h : n.getTokenId ≠ 0) :
    n.isAccessNode = false := by
  cases hk : n.kind with
  | token t => simp [QtGraphNode.isAccessNode, hk]
  | access a => simp [QtGraphNode.getTokenId, hk] at h

theorem nodesMatch_of_token {n o : QtGraphNode} (ht : n.getTokenId ≠ 0)
    (hno : n.getTokenId = o.getTokenId) : nodesMatch n o = true := by
  simp [nodesMatch, ht, hno.symm]

theorem nodesMatch_false_of_token_ne {x o : QtGraphNode} (ho : o.getTokenId ≠ 0)
    (hne : x.getTokenId ≠ o.getTokenId) : nodesMatch x o = false := by
  have hacc := isAccessNode_of_getTokenId_ne_zero ho
  simp [nodesMatch, hne, hacc]

theorem nodesMatch_false_of_token_ne_left {n y : QtGraphNode} (hn : n.getTokenId ≠ 0)
    (hne : y.getTokenId ≠ n.getTokenId) : nodesMatch n y = false := by
  have hacc := isAccessNode_of_getTokenId_ne_zero hn
  simp [nodesMatch, hacc, Ne.symm hne]

theorem findMatch_keeps {x o : QtGraphNode} (hxo : nodesMatch x o = false) :
    ∀ (po so rest : List QtGraphNode) (m : QtGraphNode),
      findMatch x (po ++ o :: so) = some (m, rest) →
      ∃ po2 so2, rest = po2 ++ o :: so2 ∧ ∀ y ∈ po2, y ∈ po := by
  intro po
  induction po with
  | nil =>
    intro so rest m h
    simp only [List.nil_append, findMatch, hxo] at h
    cases hm : findMatch x so with
    | none => simp [hm] at h
    | some q =>
      obtain ⟨m1, rest1⟩ := q
      simp only [hm, Bool.false_eq_true, if_false, Option.some.injEq, Prod.mk.injEq] at h
      exact ⟨[], rest1, by simp [← h.2], by simp⟩
  | cons y ys ih =>
    intro so rest m h
    rw [List.cons_append] at h
    simp only [findMatch] at h
    by_cases hy : nodesMatch x y = true
    · simp only [hy, if_true, Option.some.injEq, Prod.mk.injEq] at h
      exact ⟨ys, so, h.2.symm, fun z hz => List.mem_cons_of_mem _ hz⟩
    · simp only [hy] at h
      cases hm : findMatch x (ys ++ o :: so) with
      | none => simp [hm] at h
      | some q =>
        obtain ⟨m1, rest1⟩ := q
        simp only [hm, Bool.false_eq_true, if_false, Option.some.injEq, Prod.mk.injEq] at h
        obtain ⟨po2, so2, e, hsub⟩ := ih so rest1 m1 hm
        refine ⟨y :: po2, so2, by simp [← h.2, e], ?_⟩
        intro z hz
        rcases List.mem_cons.1 hz with rfl | hz
        · simp
        · exact List.mem_cons_of_mem _ (hsub z hz)

theorem first_holders_paired (n o : QtGraphNode) (sn : List QtGraphNode)
    (ht : n.getTokenId ≠ 0) (hno : n.getTokenId = o.getTokenId) :
    ∀ (pn po so : List QtGraphNode),
      (∀ x ∈ pn, x.getTokenId ≠ n.getTokenId) →
      (∀ y ∈ po, y.getTokenId ≠ n.getTokenId) →
      (n, o) ∈ (compareForests (pn ++ n :: sn) (po ++ o :: so)).remainingNodes := by
  intro pn
  induction pn with
  | nil =>
    intro po so _ hpo
    have hf : findMatch n (po ++ o :: so) = some (o, po ++ so) :=
      findMatch_of_split (nodesMatch_of_token ht hno)
        (fun y hy => nodesMatch_false_of_token_ne_left ht (hpo y hy))
    rw [List.nil_append, compareForests_cons_some hf]
    simp [Correspondence.append]
  | cons x xs ih =>
    intro po so hpn hpo
    have hx : x.getTokenId ≠ o.getTokenId := hno ▸ hpn x (by simp)
    have hxo : nodesMatch x o = false :=
      nodesMatch_false_of_token_ne (hno ▸ ht) hx
    rw [List.cons_append]
    cases h : findMatch x (po ++ o :: so) with
    | none =>
      rw [compareForests_cons_none h]
      simp only [Correspondence.append, List.nil_append]
      exact ih po so (fun z hz => hpn z (by simp [hz])) hpo
    | some q =>
      obtain ⟨m, rest⟩ := q
      obtain ⟨po2, so2, e, hsub⟩ := findMatch_keeps hxo po so rest m h
      rw [compareForests_cons_some h, e]
      simp only [Correspondence.append, List.mem_append]
      exact Or.inr (ih po2 so2 (fun z hz => hpn z (by simp [hz]))
        (fun y hy => hpo y (hsub y hy)))

/-- C4, as the code has it: a new sibling and an old sibling that share a
non-zero token identifier are matched as a remaining pair, whatever their
positions and sizes, when neither is preceded in its sibling list by another
node carrying that identifier. -/
theorem token_match_first_holders (pn sn po so : List QtGraphNode) (n o : QtGraphNode)
    (ht : n.getTokenId ≠ 0) (hno : n.getTokenId = o.getTokenId)
    (hpn : ∀ x ∈ pn, x.getTokenId ≠ n.getTokenId)
    (hpo : ∀ y ∈ po, y.getTokenId ≠ n.getTokenId) :
    (n, o) ∈ (compareNodesRecursive (pn ++ n :: sn) (po ++ o :: so)
      ⟨[], [], []⟩).remainingNodes :=
  first_holders_paired n o sn ht hno pn po so hpn hpo

/-- Instance of C4 as amended: in the worked example `D` precedes nothing with
token 1 and `A'`, `A` are the first holders of token 1. -/
theorem token_match_first_holders_witness :
    newA.getTokenId ≠ 0 ∧ newA.getTokenId = oldA.getTokenId ∧
    (∀ x ∈ [newD], x.getTokenId ≠ newA.getTokenId) ∧
    (∀ y ∈ [oldB], y.getTokenId ≠ newA.getTokenId) ∧
    (newA, oldA) ∈ (compareNodesRecursive ([newD] ++ newA :: []) ([oldB] ++ oldA :: [oldC])
      ⟨[], [], []⟩).remainingNodes :=
  ⟨by decide, by decide, by decide, by decide,
    token_match_first_holders [newD] [] [oldB] [oldC] newA oldA (by decide) (by decide)
      (by decide) (by decide)⟩

/-- C4 fails as stated: the new sibling `X` and the old sibling `Z` share the
non-zero token identifier 1, yet `X` is paired with the earlier old sibling `Y`
and `Z` is classified vanishing. -/
theorem shared_token_not_paired :
    dupNewX ∈ [dupNewX] ∧ dupOldZ ∈ [dupOldY, dupOldZ] ∧
    dupNewX.getTokenId ≠ 0 ∧ dupNewX.getTokenId = dupOldZ.getTokenId ∧
    compareNodesRecursive [dupNewX] [dupOldY, dupOldZ] ⟨[], [], []⟩ =
      ⟨[], [dupOldZ], [(dupNewX, dupOldY)]⟩ ∧
    ¬ ∃ p ∈ (compareNodesRecursive [dupNewX] [dupOldY, dupOldZ] ⟨[], [], []⟩).remainingNodes,
      p.1.ptr = dupNewX.ptr ∧ p.2.ptr = dupOldZ.ptr := by
  have hc : compareNodesRecursive [dupNewX] [dupOldY, dupOldZ] ⟨[], [], []⟩ =
      ⟨[], [dupOldZ], [(dupNewX, dupOldY)]⟩ := rfl
  refine ⟨by simp, by simp, by decide, by decide, hc, ?_⟩
  rw [hc]
  simp [QtGraphNode.ptr, dupNewX, dupOldY, dupOldZ]

/-! ## The pass follows the specification -/

theorem specRule_eq_nodesMatch (n o : QtGraphNode) : specRule n o = nodesMatch n o := by
  cases n with
  | mk p k ps sz subs =>
    cases o with
    | mk p2 k2 ps2 sz2 subs2 =>
      cases k <;> cases k2 <;>
        simp [specRule, nodesMatch, QtGraphNode.getTokenId, QtGraphNode.isAccessNode,
          QtGraphNode.getAccessType, QtGraphNode.kind]

theorem compareNodesRecursive_eq_applyDecisions (news : List QtGraphNode) :
    ∀ (olds : List QtGraphNode) (out : Correspondence),
      compareNodesRecursive news olds out =
        applyDecisions (levelPass news olds).1 (levelPass news olds).2 out := by
  induction news with
  | nil => intro olds out; simp [compareNodesRecursive, levelPass, applyDecisions]
  | cons n ns ih =>
    intro olds out
    rw [compareNodesRecursive_cons]
    cases h : findMatch n olds with
    | none => simp only [levelPass, h, applyDecisions]; exact ih _ _
    | some q =>
      obtain ⟨o, rest⟩ := q
      simp only [levelPass, h, applyDecisions]
      exact ih _ _

theorem findMatch_map_snd (n : QtGraphNode) :
    ∀ L : List (Nat × QtGraphNode), (L.map Prod.fst).Nodup →
      findMatch n (L.map Prod.snd) =
        (L.find? (fun e => specRule n e.2)).map
          (fun e => (e.2, (L.filter (fun e2 => e2.1 != e.1)).map Prod.snd)) := by
  intro L
  induction L with
  | nil => intro _; simp [findMatch]
  | cons e0 L ih =>
    intro hnd
    simp only [List.map_cons, List.nodup_cons] at hnd
    obtain ⟨hnot, hnd⟩ := hnd
    have hne : ∀ e ∈ L, (e.1 != e0.1) = true := by
      intro e he
      simp only [bne_iff_ne, ne_eq]
      intro heq
      exact hnot (heq ▸ List.mem_map_of_mem Prod.fst he)
    simp only [List.map_cons, findMatch, List.find?_cons, ← specRule_eq_nodesMatch]
    by_cases hr : specRule n e0.2 = true
    · simp only [hr, if_true, Option.map_some', List.filter_cons, bne_self_eq_false,
        Bool.false_eq_true, if_false]
      rw [List.filter_eq_self.2 hne]
    · have hr2 : specRule n e0.2 = false := by simpa using hr
      simp only [hr2, Bool.false_eq_true, if_false]
      rw [ih hnd]
      cases hf : L.find? (fun e => specRule n e.2) with
      | none => simp
      | some e =>
        have he : e ∈ L := List.mem_of_find?_eq_some hf
        have hne0 : ¬ e0.1 = e.1 := by
          have := hne e he
          simp only [bne_iff_ne, ne_eq] at this
          exact fun h => this h.symm
        simp [List.filter_cons, hne0]

theorem unpaired_nodup (olds : List QtGraphNode) (paired : List Nat) :
    ((unpaired olds paired).map Prod.fst).Nodup := by
  unfold unpaired
  refine List.Nodup.sublist ((List.filter_sublist _).map Prod.fst) ?_
  rw [List.enum_map_fst]
  exact List.nodup_range _

theorem unpaired_cons (olds : List QtGraphNode) (paired : List Nat) (j : Nat) :
    unpaired olds (j :: paired) = (unpaired olds paired).filter (fun e => e.1 != j) := by
  unfold unpaired
  rw [List.filter_filter]
  congr 1
  funext e
  by_cases h : e.1 = j
  · simp [h]
  · simp [h]

theorem specPass_eq_levelPass (news : List QtGraphNode) :
    ∀ (olds : List QtGraphNode) (paired : List Nat),
      specPass news olds paired = levelPass news ((unpaired olds paired).map Prod.snd) := by
  induction news with
  | nil => intro olds paired; simp [specPass, levelPass]
  | cons n ns ih =>
    intro olds paired
    simp only [specPass, levelPass, partner]
    rw [findMatch_map_snd n _ (unpaired_nodup olds paired)]
    cases hf : (unpaired olds paired).find? (fun e => specRule n e.2) with
    | none => simp only [Option.map_none']; rw [ih]
    | some e => simp only [Option.map_some']; rw [ih, unpaired_cons]

theorem unpaired_nil (olds : List QtGraphNode) :
    (unpaired olds []).map Prod.snd = olds := by
  unfold unpaired
  simp [List.enum_map_snd]

theorem kind_eq_of_nodesMatch {n o : QtGraphNode} (h : nodesMatch n o = true) :
    n.kind = o.kind := by
  rw [nodesMatch_iff] at h
  rcases h with ⟨t, _, h1, h2⟩ | ⟨a, h1, h2⟩
  · rw [h1, h2]
  · rw [h1, h2]

theorem levelPass_access_pairs (a : AccessType) (news : List QtGraphNode) :
    ∀ pool : List QtGraphNode,
      (pairsOf (levelPass news pool).1).filter (fun p => decide (p.1.kind = .access a)) =
        (news.filter (fun n => decide (n.kind = .access a))).zip
          (pool.filter (fun o => decide (o.kind = .access a))) := by
  induction news with
  | nil => intro pool; simp [levelPass, pairsOf]
  | cons n ns ih =>
    intro pool
    cases h : findMatch n pool with
    | none =>
      have hnone := findMatch_none h
      simp only [levelPass, h, pairsOf, List.filterMap_cons, Option.map_none']
      by_cases hk : n.kind = .access a
      · have hp : pool.filter (fun o => decide (o.kind = .access a)) = [] := by
          rw [List.filter_eq_nil_iff]
          intro y hy hya
          have hm : nodesMatch n y = true :=
            (nodesMatch_iff n y).2 (Or.inr ⟨a, hk, by simpa using hya⟩)
          rw [hnone y hy] at hm
          exact Bool.noConfusion hm
        have := ih pool
        simp only [pairsOf, hp, List.zip_nil_right] at this
        rw [this, hp, List.zip_nil_right]
      · simp only [List.filter_cons, hk, decide_False, Bool.false_eq_true, if_false]
        exact ih pool
    | some q =>
      obtain ⟨o, rest⟩ := q
      obtain ⟨pre, post, e1, e2, hm, hpre⟩ := findMatch_some h
      have hko := kind_eq_of_nodesMatch hm
      simp only [levelPass, h, pairsOf, List.filterMap_cons, Option.map_some']
      by_cases hk : n.kind = .access a
      · have hpf : pre.filter (fun o => decide (o.kind = .access a)) = [] := by
          rw [List.filter_eq_nil_iff]
          intro y hy hya
          have hm2 : nodesMatch n y = true :=
            (nodesMatch_iff n y).2 (Or.inr ⟨a, hk, by simpa using hya⟩)
          rw [hpre y hy] at hm2
          exact Bool.noConfusion hm2
        have hoa : o.kind = .access a := hko ▸ hk
        have := ih rest
        subst e1 e2
        simp only [pairsOf, List.filter_append, hpf, List.nil_append] at this
        simp only [List.filter_cons, hk, decide_True, if_true, this,
          List.filter_append, hpf, List.nil_append, hoa, List.zip_cons_cons]
      · have hoa : ¬ o.kind = .access a := hko ▸ hk
        have := ih rest
        subst e1 e2
        simp only [pairsOf, List.filter_append] at this
        simp only [List.filter_cons, hk, decide_False, Bool.false_eq_true, if_false, this,
          List.filter_append, hoa]

theorem applyDecisions_append (ds : List (QtGraphNode × Option QtGraphNode))
    (left : List QtGraphNode) :
    ∀ out : Correspondence,
      applyDecisions ds left out = out.append (applyDecisions ds left ⟨[], [], []⟩) := by
  induction ds with
  | nil => intro out; simp [applyDecisions, Correspondence.append]
  | cons d ds ih =>
    intro out
    obtain ⟨n, o | o⟩ := d
    · simp only [applyDecisions]
      rw [ih, ih ⟨[] ++ [n], [], []⟩]
      simp [Correspondence.append]
    · simp only [applyDecisions]
      rw [ih, compareNodesRecursive_append, ih (compareNodesRecursive _ _ _),
        compareNodesRecursive_append _ _ ⟨[], [], [] ++ [(n, o)]⟩]
      simp [Correspondence.append]

theorem applyDecisions_observed (ds : List (QtGraphNode × Option QtGraphNode))
    (left : List QtGraphNode) :
    List.Sublist (pairsOf ds) (applyDecisions ds left ⟨[], [], []⟩).remainingNodes ∧
    List.Sublist (unpartneredOf ds) (applyDecisions ds left ⟨[], [], []⟩).appearingNodes ∧
    left <:+ (applyDecisions ds left ⟨[], [], []⟩).vanishingNodes := by
  induction ds with
  | nil => simp [applyDecisions, pairsOf, unpartneredOf]
  | cons d ds ih =>
    obtain ⟨ih1, ih2, ih3⟩ := ih
    obtain ⟨n, o | o⟩ := d
    · simp only [applyDecisions]
      rw [applyDecisions_append]
      simp only [Correspondence.append, List.nil_append, pairsOf, unpartneredOf,
        List.filterMap_cons, Option.map_none', List.filter_cons, Option.isNone_none,
        if_true, List.map_cons, List.cons_append]
      exact ⟨ih1, ih2.cons₂ n, ih3⟩
    · simp only [applyDecisions]
      rw [applyDecisions_append, compareNodesRecursive_append]
      simp only [Correspondence.append, List.nil_append, pairsOf, unpartneredOf,
        List.filterMap_cons, Option.map_some', List.filter_cons, Option.isNone_some,
        Bool.false_eq_true, if_false, List.cons_append, List.singleton_append]
      refine ⟨?_, ?_, ?_⟩
      · exact (List.sublist_append_of_sublist_right ih1).cons₂ (n, o)
      · exact List.sublist_append_of_sublist_right ih2
      · exact ih3.trans (List.suffix_append _ _)

/-- C5: within one call the new siblings are taken in list order and each is
paired with the first old sibling, in old-list order, that no earlier new
sibling was paired with and that satisfies the matching rule, and is pushed to
`appearingNodes` exactly when there is none; the old siblings left unpaired are
pushed to `vanishingNodes` at the end of the call in old-list order. Run on
empty output lists, the pairs, the new siblings without partner and the unpaired
old siblings show in the output in that order. Access siblings of one access
type are paired in encounter order. -/
theorem pass_follows_spec (news olds : List QtGraphNode) :
    (∀ out : Correspondence,
      compareNodesRecursive news olds out =
        applyDecisions (specPass news olds []).1 (specPass news olds []).2 out) ∧
    (specPass news olds []).1.map Prod.fst = news ∧
    List.Sublist (pairsOf (specPass news olds []).1)
      (compareNodesRecursive news olds ⟨[], [], []⟩).remainingNodes ∧
    List.Sublist (unpartneredOf (specPass news olds []).1)
      (compareNodesRecursive news olds ⟨[], [], []⟩).appearingNodes ∧
    (specPass news olds []).2 <:+
      (compareNodesRecursive news olds ⟨[], [], []⟩).vanishingNodes ∧
    (∀ a : AccessType,
      (pairsOf (specPass news olds []).1).filter (fun p => decide (p.1.kind = .access a)) =
        (news.filter (fun n => decide (n.kind = .access a))).zip
          (olds.filter (fun o => decide (o.kind = .access a)))) := by
  have hs : specPass news olds [] = levelPass news olds := by
    rw [specPass_eq_levelPass, unpaired_nil]
  have hfst : ∀ (l pool : List QtGraphNode), (levelPass l pool).1.map Prod.fst = l := by
    intro l
    induction l with
    | nil => intro pool; simp [levelPass]
    | cons n ns ih =>
      intro pool
      cases h : findMatch n pool with
      | none => simp [levelPass, h, ih]
      | some q => simp [levelPass, h, ih]
  have hobs := applyDecisions_observed (levelPass news olds).1 (levelPass news olds).2
  rw [← compareNodesRecursive_eq_applyDecisions] at hobs
  rw [hs]
  exact ⟨fun out => compareNodesRecursive_eq_applyDecisions news olds out, hfst news olds,
    hobs.1, hobs.2.1, hobs.2.2, fun a => levelPass_access_pairs a news olds⟩

theorem access_siblings_encounter_order :
    (compareNodesRecursive accessSiblings.1 accessSiblings.2 ⟨[], [], []⟩).remainingNodes.map
      (fun p => (p.1.ptr, p.2.ptr)) = [(41, 44), (42, 45)] ∧
    (compareNodesRecursive accessSiblings.1 accessSiblings.2 ⟨[], [], []⟩).appearingNodes.map
      QtGraphNode.ptr = [43] ∧
    (compareNodesRecursive accessSiblings.1 accessSiblings.2 ⟨[], [], []⟩).vanishingNodes.map
      QtGraphNode.ptr = [] ∧
    (pairsOf (specPass accessSiblings.1 accessSiblings.2 []).1).map
      (fun p => (p.1.ptr, p.2.ptr)) = [(41, 44), (42, 45)] := by
  decide


end QtGraphView
